import Mathlib

/-!
# Slipping-player grid game: embedding of `sliding_player_grid_game.cpp`

Conventions of the embedding.

* C++ `int` values are `Int`. Every arithmetic expression of the program is
  evaluated on grid coordinates and state indices, far from the 32-bit range,
  so no wrap-around is modelled. `/` and `%` on `int` truncate towards zero
  and are `Int.tdiv` and `Int.tmod`.
* `double` values are exact rationals (`ℚ`): `0.9` is `9/10`, `-1e9` is
  `-1000000000`.
* `rand()` is a global generator; it is modelled by the sequence of values
  it is going to return together with a cursor. `RAND_MAX` comes from
  `<cstdlib>` and is carried by the generator.
* Reading or writing `grid` or `q_table` outside their bounds is undefined
  behaviour in C++; the accessors return `none` there and every function
  that performs such an access returns an `Option`.
-/

namespace SlipGrid

/-! ## Constants -/

def GRID_ROWS : Int := 5
def GRID_COLS : Int := 5
def NUM_STATES : Int := GRID_ROWS * GRID_COLS
def NUM_ACTIONS : Int := 4

/-- Action definitions: `enum Action { UP, DOWN, LEFT, RIGHT }`. -/
inductive Action where
  | UP
  | DOWN
  | LEFT
  | RIGHT
  deriving DecidableEq, Repr

/-- The integer value of an enumerator, `(int)(action)`. -/
def Action.toInt : Action → Int
  | .UP => 0
  | .DOWN => 1
  | .LEFT => 2
  | .RIGHT => 3

/-- The cast `static_cast<Action>(i)`, defined on the four enumerator values. -/
def Action.ofInt (i : Int) : Option Action :=
  if i = 0 then some .UP
  else if i = 1 then some .DOWN
  else if i = 2 then some .LEFT
  else if i = 3 then some .RIGHT
  else none

/-- Cell types: `enum CellType { START = 'S', N = 'N', MONSTER = 'M', GOAL = 'G' }`. -/
inductive CellType where
  | START
  | N
  | MONSTER
  | GOAL
  deriving DecidableEq, Repr

def GAMMA : ℚ := 9 / 10
def EPSILON_START : ℚ := 1
def EPSILON_MIN : ℚ := 1 / 100
def EPSILON_DECAY : ℚ := 995 / 1000
def NUM_EPISODES : Nat := 10000
def MAX_STEPS_PER_EPISODE : Nat := 100

/-! ## The grid -/

open CellType in
/-- The fixed map `char grid[GRID_ROWS][GRID_COLS]`. -/
def grid : List (List CellType) :=
  [ [START, N,       N, MONSTER, N],
    [N,     N,       N, N,       N],
    [N,     N,       N, N,       N],
    [N,     MONSTER, N, N,       N],
    [N,     N,       N, N,       GOAL] ]

/-- The read `grid[row][col]`; `none` outside the array. -/
def grid_at (row col : Int) : Option CellType :=
  if 0 ≤ row ∧ row < GRID_ROWS ∧ 0 ≤ col ∧ col < GRID_COLS then
    (grid.get? row.toNat).bind (fun line => line.get? col.toNat)
  else none

def start_state_index : Int × Int := (0, 0)

/-! ## Index conversions -/

/-- Convert (row, col) to 1D state index; `-1` is the invalid index. -/
def to_state_index (r c : Int) : Int :=
  if r ≥ 0 ∧ r < GRID_ROWS ∧ c ≥ 0 ∧ c < GRID_COLS then r * GRID_COLS + c
  else -1

/-- Convert 1D state index to (row, col). -/
def to_row_col (state_index : Int) : Int × Int :=
  (state_index.tdiv GRID_COLS, state_index.tmod GRID_COLS)

/-- The cell tag of a state index: the read `grid[row][col]` at the
coordinates given by `to_row_col`. -/
def cell_of (state_index : Int) : Option CellType :=
  grid_at (to_row_col state_index).1 (to_row_col state_index).2

/-! ## Rewards -/

/-- Reward for landing in `state_index`. -/
def get_reward (state_index : Int) : Option ℚ :=
  let row_col := to_row_col state_index
  let row := row_col.1
  let col := row_col.2
  (grid_at row col).map fun cell =>
    if cell = CellType.GOAL then 100
    else if cell = CellType.MONSTER then -100
    else -(1 / 10)

/-! ## The random generator -/

/-- The state of the C library generator: the values `rand()` is going to
return, in order, and how many have been consumed. -/
structure RandGen where
  RAND_MAX : Nat
  values : Nat → Nat
  next : Nat

/-- One call of `rand()`. -/
def rand (g : RandGen) : Nat × RandGen :=
  (g.values g.next, { g with next := g.next + 1 })

/-- The expression `static_cast<double>(rand()) / RAND_MAX` for a drawn value. -/
def unit_draw (g : RandGen) (v : Nat) : ℚ := (v : ℚ) / (g.RAND_MAX : ℚ)

/-! ## Transitions -/

/-- The `switch (action)` of `get_next_state`: the pair `(dr, dc)`. -/
def displacement : Action → Int × Int
  | .UP => (-1, 0)
  | .DOWN => (1, 0)
  | .LEFT => (0, -1)
  | .RIGHT => (0, 1)

/-- The bounds test `r >= 0 && r < GRID_ROWS && c >= 0 && c < GRID_COLS`. -/
def in_grid (r c : Int) : Prop :=
  r ≥ 0 ∧ r < GRID_ROWS ∧ c ≥ 0 ∧ c < GRID_COLS

instance (r c : Int) : Decidable (in_grid r c) := by
  unfold in_grid; infer_instance

/-- The slip test `static_cast<double>(rand()) / RAND_MAX < 0.5` on the next
value of the generator. -/
def slip_fires (g : RandGen) : Prop := unit_draw g (rand g).1 < 1 / 2

instance (g : RandGen) : Decidable (slip_fires g) := by
  unfold slip_fires; infer_instance

/-- Determine the next state given the current state and action, with
slipping. The generator is consulted only when the first step stays on the
grid. -/
def get_next_state (current_state_index : Int) (action : Action) (g : RandGen) :
    Int × RandGen :=
  let current_pos := to_row_col current_state_index
  let r := current_pos.1
  let c := current_pos.2
  let dr := (displacement action).1
  let dc := (displacement action).2
  -- First step
  let next_r := r + dr
  let next_c := c + dc
  -- Boundary check for the first step
  if next_r < 0 ∨ next_r ≥ GRID_ROWS ∨ next_c < 0 ∨ next_c ≥ GRID_COLS then
    (current_state_index, g)
  else
    -- Slipping: one more step in the same direction
    let next :=
      if slip_fires g then
        let slip_r := next_r + dr
        let slip_c := next_c + dc
        if slip_r ≥ 0 ∧ slip_r < GRID_ROWS ∧ slip_c ≥ 0 ∧ slip_c < GRID_COLS then
          (slip_r, slip_c)
        else
          (next_r, next_c)
      else
        (next_r, next_c)
    (to_state_index next.1 next.2, (rand g).2)

/-! ## The Q-table -/

/-- The table `q_table[state_index][action_index]`, of fixed size
`NUM_STATES × NUM_ACTIONS`; only the entries inside these bounds are part of
the table. -/
abbrev QTable := Int → Int → ℚ

/-- The initial table: every entry `0`. -/
def q_table_init : QTable := fun _ _ => 0

/-- The read `q_table[state_index][i]`; `none` outside the table. -/
def q_at (q_table : QTable) (state_index i : Int) : Option ℚ :=
  if 0 ≤ state_index ∧ state_index < NUM_STATES ∧ 0 ≤ i ∧ i < NUM_ACTIONS then
    some (q_table state_index i)
  else none

/-- The write `q_table[state_index][i] = v`; `none` outside the table. -/
def q_write (q_table : QTable) (state_index i : Int) (v : ℚ) : Option QTable :=
  if 0 ≤ state_index ∧ state_index < NUM_STATES ∧ 0 ≤ i ∧ i < NUM_ACTIONS then
    some (fun s a => if s = state_index ∧ a = i then v else q_table s a)
  else none

/-- The values of `i` in `for (int i = 0; i < NUM_ACTIONS; ++i)`. -/
def action_indices : List Int := (List.range NUM_ACTIONS.toNat).map Int.ofNat

/-- The initial value `-1e9` of both maximum searches. -/
def MAX_Q_INIT : ℚ := -1000000000

/-- Body of the loop of `choose_action`: keeps the running maximum and the
action that reached it, replaced only by a strictly greater entry. -/
def choose_action_body (q_table : QTable) (state_index : Int)
    (acc : ℚ × Action) (i : Int) : Option (ℚ × Action) :=
  (q_at q_table state_index i).bind fun q =>
    if q > acc.1 then (Action.ofInt i).map fun a => (q, a)
    else some acc

/-- The exploit branch of `choose_action`. -/
def best_action (q_table : QTable) (state_index : Int) : Option Action :=
  (action_indices.foldlM (choose_action_body q_table state_index)
    (MAX_Q_INIT, Action.UP)).map fun acc => acc.2

/-- The explore test `static_cast<double>(rand()) / RAND_MAX < epsilon` on the
next value of the generator. -/
def explores (epsilon : ℚ) (g : RandGen) : Prop := unit_draw g (rand g).1 < epsilon

instance (epsilon : ℚ) (g : RandGen) : Decidable (explores epsilon g) := by
  unfold explores; infer_instance

/-- Choose an action with the epsilon-greedy strategy. -/
def choose_action (q_table : QTable) (state_index : Int) (epsilon : ℚ) (g : RandGen) :
    Option (Action × RandGen) :=
  let g1 := (rand g).2
  if explores epsilon g then
    -- Explore: `(Action)(rand() % NUM_ACTIONS)`
    (Action.ofInt (Int.tmod ((rand g1).1 : Int) NUM_ACTIONS)).map fun a => (a, (rand g1).2)
  else
    -- Exploit
    (best_action q_table state_index).map fun a => (a, g1)

/-- Body of the loop of `get_max_q_value_for_state`. -/
def max_q_body (q_table : QTable) (state_index : Int) (max_q : ℚ) (i : Int) : Option ℚ :=
  (q_at q_table state_index i).map fun q => if q > max_q then q else max_q

/-- The maximum Q-value of a state, `0` for a terminal state. -/
def get_max_q_value_for_state (q_table : QTable) (state_index : Int) : Option ℚ :=
  if state_index < 0 ∨ state_index ≥ NUM_STATES then some 0
  else
    (action_indices.foldlM (max_q_body q_table state_index) MAX_Q_INIT).bind fun max_q =>
      let row_col := to_row_col state_index
      let row := row_col.1
      let col := row_col.2
      (grid_at row col).map fun cell =>
        if cell = CellType.GOAL ∨ cell = CellType.MONSTER then 0 else max_q

/-! ## Training -/

/-- The state of the `while` loop of one episode. -/
structure Episode where
  q_table : QTable
  current_state : Int
  steps : Nat
  gen : RandGen

/-- The part of the loop body of an episode after the terminal test: choose
an action, move, and overwrite `q_table[current_state][action_taken]` with
`reward + GAMMA * max_q_next_state`. Returns the new table, the realized next
state and the generator. -/
def q_learning_step (q_table : QTable) (current_state : Int) (epsilon : ℚ)
    (g : RandGen) : Option (QTable × Int × RandGen) :=
  (choose_action q_table current_state epsilon g).bind fun chosen =>
    let action_taken := chosen.1
    let moved := get_next_state current_state action_taken chosen.2
    let next_actual_state := moved.1
    (get_reward next_actual_state).bind fun reward =>
      (get_max_q_value_for_state q_table next_actual_state).bind fun max_q_next_state =>
        (q_write q_table current_state action_taken.toInt
            (reward + GAMMA * max_q_next_state)).map fun q_new =>
          (q_new, next_actual_state, moved.2)

/-- The loop `while (steps < MAX_STEPS_PER_EPISODE)` of one episode, with
its `break` on a GOAL or MONSTER cell. -/
def episode_loop (epsilon : ℚ) (e : Episode) : Option Episode :=
  if e.steps < MAX_STEPS_PER_EPISODE then
    match cell_of e.current_state with
    | none => none
    | some cell =>
      if cell = CellType.GOAL ∨ cell = CellType.MONSTER then some e
      else
        match q_learning_step e.q_table e.current_state epsilon e.gen with
        | none => none
        | some r =>
          episode_loop epsilon
            { q_table := r.1, current_state := r.2.1, steps := e.steps + 1, gen := r.2.2 }
  else some e
termination_by MAX_STEPS_PER_EPISODE - e.steps
decreasing_by omega

/-- The state of `run_q_learning` between two episodes. -/
structure Trainer where
  q_table : QTable
  current_epsilon : ℚ
  gen : RandGen

/-- The statement `if (current_epsilon > EPSILON_MIN) current_epsilon *= EPSILON_DECAY`. -/
def decay_epsilon (current_epsilon : ℚ) : ℚ :=
  if current_epsilon > EPSILON_MIN then current_epsilon * EPSILON_DECAY
  else current_epsilon

/-- One iteration of the `for` loop of `run_q_learning`: an episode from the
start state, then the decay of epsilon. The progress line is not modelled. -/
def run_episode (t : Trainer) : Option Trainer :=
  let current_state := to_state_index start_state_index.1 start_state_index.2
  (episode_loop t.current_epsilon
      { q_table := t.q_table, current_state := current_state, steps := 0, gen := t.gen }).map
    fun e =>
      { q_table := e.q_table, current_epsilon := decay_epsilon t.current_epsilon,
        gen := e.gen }

/-- The first `n` iterations of the `for` loop of `run_q_learning`. -/
def run_episodes : Nat → Trainer → Option Trainer
  | 0, t => some t
  | n + 1, t => (run_episode t).bind (run_episodes n)

/-- The state in which `run_q_learning` enters its loop; `g` is the generator
as seeded by `srand(time(0))`. -/
def trainer_init (g : RandGen) : Trainer :=
  { q_table := q_table_init, current_epsilon := EPSILON_START, gen := g }

/-- The whole of `run_q_learning`. -/
def run_q_learning (g : RandGen) : Option Trainer :=
  run_episodes NUM_EPISODES (trainer_init g)

/-! ## Playback -/

/-- The lines `play_game` writes to the output stream. -/
inductive Line where
  /-- Text `--- Playing Game with Learned Policy ---` -/
  | banner
  /-- Text `Step <step>: At state (<row>,<col>) which is '<cell>'` -/
  | at_state (step : Nat) (row col : Int) (cell : CellType)
  /-- Text `Goal reached!` -/
  | goal_reached
  /-- Text `Oops! Eaten by a monster!` -/
  | eaten
  /-- Text `  Choosing action: <action>` -/
  | choosing (action : Action)
  /-- Text `  Moved to state (<row>,<col>) which is '<cell>'` -/
  | moved_to (row col : Int) (cell : CellType)
  /-- Text `Hit a wall and stayed ghaaad ` -/
  | hit_wall
  /-- Text `Max steps reached. Did not find goal or monster.` -/
  | max_steps
  deriving DecidableEq

/-- The second operand of the wall-hit condition of `play_game`:
`best_action == UP && pos.first == 0 || best_action == DOWN && pos.first == GRID_ROWS - 1
|| best_action == LEFT && pos.second == 0 || best_action == RIGHT && pos.second == GRID_COLS - 1`. -/
def edge_test (best_action : Action) (pos : Int × Int) : Prop :=
  (best_action = Action.UP ∧ pos.1 = 0) ∨
  (best_action = Action.DOWN ∧ pos.1 = GRID_ROWS - 1) ∨
  (best_action = Action.LEFT ∧ pos.2 = 0) ∨
  (best_action = Action.RIGHT ∧ pos.2 = GRID_COLS - 1)

instance (best_action : Action) (pos : Int × Int) : Decidable (edge_test best_action pos) := by
  unfold edge_test; infer_instance

/-- The state of the `while` loop of `play_game`, with the lines written so far. -/
structure Play where
  current_state : Int
  steps : Nat
  gen : RandGen
  out : List Line

/-- One iteration of the loop of `play_game` at `current_state` with counter
`steps`: the lines it writes and, unless it ends in `break`, the next state
and the generator. The test `steps >= MAX_STEPS_PER_EPISODE` at the end of
the iteration is made on the incremented counter. -/
def play_body (q_table : QTable) (current_state : Int) (steps : Nat) (g : RandGen) :
    Option (List Line × Option (Int × RandGen)) :=
  let pos := to_row_col current_state
  (grid_at pos.1 pos.2).bind fun cell =>
    let line1 := Line.at_state (steps + 1) pos.1 pos.2 cell
    if cell = CellType.GOAL then some ([line1, Line.goal_reached], none)
    else if cell = CellType.MONSTER then some ([line1, Line.eaten], none)
    else
      (choose_action q_table current_state 0 g).bind fun chosen =>
        let best_action := chosen.1
        let moved := get_next_state current_state best_action chosen.2
        let next_state := moved.1
        let next_pos := to_row_col next_state
        (grid_at next_pos.1 next_pos.2).map fun next_cell =>
          let wall :=
            if current_state = next_state ∧ edge_test best_action pos then [Line.hit_wall]
            else []
          let cap :=
            if steps + 1 ≥ MAX_STEPS_PER_EPISODE then [Line.max_steps] else []
          ([line1, Line.choosing best_action,
              Line.moved_to next_pos.1 next_pos.2 next_cell] ++ wall ++ cap,
            some (next_state, moved.2))

/-- The loop `while (steps < MAX_STEPS_PER_EPISODE)` of `play_game`. -/
def play_loop (q_table : QTable) (p : Play) : Option Play :=
  if p.steps < MAX_STEPS_PER_EPISODE then
    match play_body q_table p.current_state p.steps p.gen with
    | none => none
    | some (lines, none) => some { p with out := p.out ++ lines }
    | some (lines, some next) =>
      play_loop q_table
        { current_state := next.1, steps := p.steps + 1, gen := next.2,
          out := p.out ++ lines }
  else some p
termination_by MAX_STEPS_PER_EPISODE - p.steps
decreasing_by omega

/-- The whole of `play_game`, on the trained table and the generator as
training left it. -/
def play_game (q_table : QTable) (g : RandGen) : Option Play :=
  play_loop q_table
    { current_state := to_state_index start_state_index.1 start_state_index.2,
      steps := 0, gen := g, out := [Line.banner] }

/-! ## Notions used in the statements -/

/-- The exploration rate held by `run_q_learning` after `n` episodes. -/
def epsilon_after (n : Nat) (g : RandGen) : Option ℚ :=
  (run_episodes n (trainer_init g)).map fun t => t.current_epsilon

/-- The table held by `run_q_learning` after `n` episodes. -/
def q_table_after (n : Nat) (g : RandGen) : Option QTable :=
  (run_episodes n (trainer_init g)).map fun t => t.q_table

/-- Whether the cell of a state index is GOAL or MONSTER. -/
def is_terminal (state_index : Int) : Prop :=
  cell_of state_index = some CellType.GOAL ∨ cell_of state_index = some CellType.MONSTER

instance (state_index : Int) : Decidable (is_terminal state_index) := by
  unfold is_terminal; infer_instance

/-- Every entry of the table lies in `[-100, 100]`. -/
def q_bounded (q_table : QTable) : Prop :=
  ∀ s a : Int, -100 ≤ q_table s a ∧ q_table s a ≤ 100

/-- A table under which the greedy walk from state 0 goes RIGHT at states 0
and 2 and LEFT at state 1. -/
def cycle_table : QTable := fun s a =>
  if (s = 0 ∧ a = 3) ∨ (s = 1 ∧ a = 2) ∨ (s = 2 ∧ a = 3) then 1 else 0

/-- A generator with `RAND_MAX = 32767` whose call number `i` (from 0)
returns `0` for `i = 197` and `RAND_MAX` otherwise, positioned at call `n`. -/
def late_slip_gen (n : Nat) : RandGen :=
  ⟨32767, fun i => if i = 197 then 0 else 32767, n⟩


/-- The maximum of the four stored values of row `state_index`. -/
def row_max (q_table : QTable) (state_index : Int) : ℚ :=
  max (max (max (q_table state_index 0) (q_table state_index 1)) (q_table state_index 2))
    (q_table state_index 3)

/-- A table whose every entry is `v`. -/
def const_table (v : ℚ) : QTable := fun _ _ => v

/-- A table that stores `-2e9` everywhere except `-1.5e9` in the RIGHT
column: every entry is below the initial value `-1e9` of the maximum
searches. -/
def low_table : QTable := fun _ a => if a = 3 then -1500000000 else -2000000000

/-- The all-zero table with `10` stored at state 0, action UP. -/
def bumped_table : QTable := fun s a => if s = 0 ∧ a = 0 then 10 else 0

/-! ## Generators used in examples -/

/-- A generator that returns `v` at every call, with `RAND_MAX = 32767`. -/
def const_gen (v : Nat) : RandGen := ⟨32767, fun _ => v, 0⟩

end SlipGrid

/-! ## Theorems -/

namespace SlipGrid

theorem cell_of_index (s : Int) (h0 : 0 ≤ s) (h1 : s < 25) :
    cell_of s = some (if s = 24 then CellType.GOAL
      else if s = 3 ∨ s = 16 then CellType.MONSTER
      else if s = 0 then CellType.START else CellType.N) := by
  interval_cases s <;> decide

theorem to_row_col_nonneg (s : Int) (h0 : 0 ≤ s) :
    to_row_col s = (s / 5, s % 5) := by
  simp [to_row_col, GRID_COLS, Int.tdiv_eq_ediv h0, Int.tmod_eq_emod h0]

/-- C8: for every row `r` and column `c` in `[0,5)`,
`to_row_col (to_state_index r c) = (r, c)`. -/
theorem to_row_col_to_state_index (r c : Int)
    (hr0 : 0 ≤ r) (hr1 : r < 5) (hc0 : 0 ≤ c) (hc1 : c < 5) :
    to_row_col (to_state_index r c) = (r, c) := by
  have hidx : to_state_index r c = r * 5 + c := by
    simp [to_state_index, GRID_ROWS, GRID_COLS, hr0, hr1, hc0, hc1]
  rw [hidx, to_row_col_nonneg _ (by omega)]
  ext <;> simp <;> omega

theorem to_row_col_to_state_index_witness :
    to_row_col (to_state_index 3 2) = (3, 2) :=
  to_row_col_to_state_index 3 2 (by decide) (by decide) (by decide) (by decide)

/-- C9: for every index `i` in `[0,25)`, `to_row_col i` is a pair `(r, c)` of
in-range coordinates with `to_state_index r c = i`; on in-range coordinates
`to_state_index` is `r * 5 + c`, it lands in `[0,25)`, is injective there and
reaches every index of `[0,25)`. -/
theorem to_state_index_bijection :
    (∀ i : Int, 0 ≤ i → i < 25 →
      0 ≤ (to_row_col i).1 ∧ (to_row_col i).1 < 5 ∧
      0 ≤ (to_row_col i).2 ∧ (to_row_col i).2 < 5 ∧
      to_state_index (to_row_col i).1 (to_row_col i).2 = i) ∧
    (∀ r c : Int, 0 ≤ r → r < 5 → 0 ≤ c → c < 5 →
      to_state_index r c = r * 5 + c ∧
      0 ≤ to_state_index r c ∧ to_state_index r c < 25) ∧
    (∀ r c r2 c2 : Int, 0 ≤ r → r < 5 → 0 ≤ c → c < 5 →
      0 ≤ r2 → r2 < 5 → 0 ≤ c2 → c2 < 5 →
      to_state_index r c = to_state_index r2 c2 → r = r2 ∧ c = c2) ∧
    (∀ i : Int, 0 ≤ i → i < 25 →
      ∃ r c : Int, 0 ≤ r ∧ r < 5 ∧ 0 ≤ c ∧ c < 5 ∧ to_state_index r c = i) := by
  have hidx : ∀ r c : Int, 0 ≤ r → r < 5 → 0 ≤ c → c < 5 →
      to_state_index r c = r * 5 + c := by
    intro r c hr0 hr1 hc0 hc1
    simp [to_state_index, GRID_ROWS, GRID_COLS, hr0, hr1, hc0, hc1]
  have hinv : ∀ i : Int, 0 ≤ i → i < 25 →
      0 ≤ (to_row_col i).1 ∧ (to_row_col i).1 < 5 ∧
      0 ≤ (to_row_col i).2 ∧ (to_row_col i).2 < 5 ∧
      to_state_index (to_row_col i).1 (to_row_col i).2 = i := by
    intro i h0 h1
    rw [to_row_col_nonneg i h0]
    have e := hidx (i / 5) (i % 5) (by omega) (by omega) (by omega) (by omega)
    simp only [e]
    omega
  refine ⟨hinv, ?_, ?_, ?_⟩
  · intro r c hr0 hr1 hc0 hc1
    rw [hidx r c hr0 hr1 hc0 hc1]
    omega
  · intro r c r2 c2 hr0 hr1 hc0 hc1 hr20 hr21 hc20 hc21 h
    rw [hidx r c hr0 hr1 hc0 hc1, hidx r2 c2 hr20 hr21 hc20 hc21] at h
    omega
  · intro i h0 h1
    obtain ⟨a, b, c, d, e⟩ := hinv i h0 h1
    exact ⟨_, _, a, b, c, d, e⟩

/-- Unfolding of `get_next_state` on a valid index, with the coordinates
written by `/` and `%`. -/
theorem get_next_state_unfold (s : Int) (a : Action) (g : RandGen) (h0 : 0 ≤ s) :
    (get_next_state s a g).1 =
      if s / 5 + (displacement a).1 < 0 ∨ s / 5 + (displacement a).1 ≥ 5 ∨
          s % 5 + (displacement a).2 < 0 ∨ s % 5 + (displacement a).2 ≥ 5 then s
      else if slip_fires g then
        if in_grid (s / 5 + (displacement a).1 + (displacement a).1)
            (s % 5 + (displacement a).2 + (displacement a).2) then
          to_state_index (s / 5 + (displacement a).1 + (displacement a).1)
            (s % 5 + (displacement a).2 + (displacement a).2)
        else to_state_index (s / 5 + (displacement a).1) (s % 5 + (displacement a).2)
      else to_state_index (s / 5 + (displacement a).1) (s % 5 + (displacement a).2) := by
  simp only [get_next_state, to_row_col_nonneg s h0, GRID_ROWS, GRID_COLS, in_grid]
  split_ifs <;> rfl

/-- The next state of a valid index is a valid index. -/
theorem get_next_state_range (s : Int) (a : Action) (g : RandGen)
    (h0 : 0 ≤ s) (h1 : s < 25) :
    0 ≤ (get_next_state s a g).1 ∧ (get_next_state s a g).1 < 25 := by
  rw [get_next_state_unfold s a g h0]
  cases a <;> simp only [displacement, in_grid, to_state_index, GRID_ROWS, GRID_COLS] <;>
    split_ifs <;> omega

/-- C1: for every index `s` in `[0,25)`, every action and every state of the
random generator (hence every outcome of the slip draw), `get_next_state`
returns an index in `[0,25)`, and never the invalid index `-1`. -/
theorem get_next_state_closed (s : Int) (a : Action) (g : RandGen)
    (h0 : 0 ≤ s) (h1 : s < 25) :
    0 ≤ (get_next_state s a g).1 ∧ (get_next_state s a g).1 < 25 ∧
      (get_next_state s a g).1 ≠ -1 := by
  have h := get_next_state_range s a g h0 h1
  exact ⟨h.1, h.2, by omega⟩

theorem get_next_state_closed_witness :
    0 ≤ (get_next_state 4 Action.RIGHT (const_gen 0)).1 ∧
      (get_next_state 4 Action.RIGHT (const_gen 0)).1 < 25 ∧
      (get_next_state 4 Action.RIGHT (const_gen 0)).1 ≠ -1 :=
  get_next_state_closed 4 Action.RIGHT (const_gen 0) (by decide) (by decide)

/-- C2: for every index `s` in `[0,25)` and action whose one-cell displacement
from `s` leaves the grid, `get_next_state` returns `s` itself, whatever the
state of the random generator. -/
theorem get_next_state_wall (s : Int) (a : Action) (g : RandGen)
    (h0 : 0 ≤ s) (_h1 : s < 25)
    (hwall : ¬ in_grid ((to_row_col s).1 + (displacement a).1)
      ((to_row_col s).2 + (displacement a).2)) :
    (get_next_state s a g).1 = s := by
  rw [get_next_state_unfold s a g h0]
  rw [to_row_col_nonneg s h0] at hwall
  simp only [in_grid, GRID_ROWS, GRID_COLS] at hwall
  rw [if_pos]
  omega

theorem get_next_state_wall_witness :
    (get_next_state 4 Action.RIGHT (const_gen 0)).1 = 4 :=
  get_next_state_wall 4 Action.RIGHT (const_gen 0) (by decide) (by decide) (by decide)

/-- C3: for every index `s` in `[0,25)` at `(r, c)` and action with unit
displacement `(dr, dc)` such that `(r+dr, c+dc)` is inside the grid: when the
slip draw does not fire the result is the index of `(r+dr, c+dc)`; when it
fires and `(r+2dr, c+2dc)` is inside the grid the result is the index of
`(r+2dr, c+2dc)`; when it fires and `(r+2dr, c+2dc)` is outside the grid the
result is the index of `(r+dr, c+dc)`, which differs from the origin `s`. -/
theorem get_next_state_move (s : Int) (a : Action) (g : RandGen)
    (h0 : 0 ≤ s) (_h1 : s < 25)
    (hin : in_grid ((to_row_col s).1 + (displacement a).1)
      ((to_row_col s).2 + (displacement a).2)) :
    (¬ slip_fires g →
      (get_next_state s a g).1 =
        ((to_row_col s).1 + (displacement a).1) * 5 +
          ((to_row_col s).2 + (displacement a).2)) ∧
    (slip_fires g →
      in_grid ((to_row_col s).1 + 2 * (displacement a).1)
        ((to_row_col s).2 + 2 * (displacement a).2) →
      (get_next_state s a g).1 =
        ((to_row_col s).1 + 2 * (displacement a).1) * 5 +
          ((to_row_col s).2 + 2 * (displacement a).2)) ∧
    (slip_fires g →
      ¬ in_grid ((to_row_col s).1 + 2 * (displacement a).1)
        ((to_row_col s).2 + 2 * (displacement a).2) →
      (get_next_state s a g).1 =
        ((to_row_col s).1 + (displacement a).1) * 5 +
          ((to_row_col s).2 + (displacement a).2) ∧
      (get_next_state s a g).1 ≠ s) := by
  rw [get_next_state_unfold s a g h0]
  rw [to_row_col_nonneg s h0] at hin ⊢
  simp only [in_grid, GRID_ROWS, GRID_COLS] at hin
  refine ⟨fun hs => ?_, fun hs h2 => ?_, fun hs h2 => ?_⟩
  · rw [if_neg (by omega), if_neg hs]
    simp only [to_state_index, GRID_ROWS, GRID_COLS]
    rw [if_pos (by omega)]
  · simp only [in_grid, GRID_ROWS, GRID_COLS] at h2
    rw [if_neg (by omega), if_pos hs]
    simp only [in_grid, to_state_index, GRID_ROWS, GRID_COLS]
    rw [if_pos (by omega), if_pos (by omega)]
    ring
  · simp only [in_grid, GRID_ROWS, GRID_COLS] at h2
    rw [if_neg (by omega), if_pos hs]
    simp only [in_grid, to_state_index, GRID_ROWS, GRID_COLS]
    rw [if_neg (by omega), if_pos (by omega)]
    refine ⟨rfl, ?_⟩
    cases a <;> simp only [displacement] at hin ⊢ <;> omega

theorem slip_fires_const_zero : slip_fires (const_gen 0) := by
  norm_num [slip_fires, unit_draw, rand, const_gen]

theorem slip_fires_const_max : ¬ slip_fires (const_gen 32767) := by
  norm_num [slip_fires, unit_draw, rand, const_gen]

theorem get_next_state_move_witness :
    (get_next_state 0 Action.RIGHT (const_gen 32767)).1 = 1 ∧
    (get_next_state 0 Action.RIGHT (const_gen 0)).1 = 2 ∧
    ((get_next_state 3 Action.RIGHT (const_gen 0)).1 = 4 ∧
      (get_next_state 3 Action.RIGHT (const_gen 0)).1 ≠ 3) :=
  ⟨(get_next_state_move 0 Action.RIGHT (const_gen 32767) (by decide) (by decide)
      (by decide)).1 slip_fires_const_max,
   (get_next_state_move 0 Action.RIGHT (const_gen 0) (by decide) (by decide)
      (by decide)).2.1 slip_fires_const_zero (by decide),
   (get_next_state_move 3 Action.RIGHT (const_gen 0) (by decide) (by decide)
      (by decide)).2.2 slip_fires_const_zero (by decide)⟩

/-- C10: for every index `s` in `[0,25)` of the fixed grid, `get_reward s` is
`100` if the cell of `s` is GOAL, which is the case exactly for index 24,
`-100` if it is MONSTER, which is the case exactly for indices 3 and 16, and
`-1/10` for every other cell; the START cell, index 0, is one of those. -/
theorem get_reward_cases (s : Int) (h0 : 0 ≤ s) (h1 : s < 25) :
    (cell_of s = some CellType.GOAL ↔ s = 24) ∧
    (cell_of s = some CellType.MONSTER ↔ s = 3 ∨ s = 16) ∧
    (cell_of s = some CellType.GOAL → get_reward s = some 100) ∧
    (cell_of s = some CellType.MONSTER → get_reward s = some (-100)) ∧
    (cell_of s ≠ some CellType.GOAL → cell_of s ≠ some CellType.MONSTER →
      get_reward s = some (-(1 / 10))) ∧
    cell_of 0 = some CellType.START ∧ get_reward 0 = some (-(1 / 10)) := by
  have hrew : ∀ t : Int, get_reward t = (cell_of t).map fun cell =>
      if cell = CellType.GOAL then (100 : ℚ)
      else if cell = CellType.MONSTER then -100 else -(1 / 10) := fun _ => rfl
  have hc := cell_of_index s h0 h1
  have hc0 := cell_of_index 0 (by decide) (by decide)
  rw [hrew s, hrew 0, hc, hc0]
  refine ⟨?_, ?_, ?_, ?_, ?_, ?_, ?_⟩
  · by_cases e : s = 24 <;> by_cases e3 : s = 3 <;> by_cases e16 : s = 16 <;>
      by_cases e0 : s = 0 <;> simp [e, e3, e16, e0]
  · by_cases e : s = 24 <;> by_cases e3 : s = 3 <;> by_cases e16 : s = 16 <;>
      by_cases e0 : s = 0 <;> simp [e, e3, e16, e0]
  · intro h
    rw [Option.some.injEq] at h
    simp [h]
  · intro h
    rw [Option.some.injEq] at h
    simp [h]
  · intro hg hm
    rw [Ne, Option.some.injEq] at hg hm
    simp [hg, hm]
  · simp
  · simp

theorem get_reward_cases_witness :
    (cell_of 16 = some CellType.GOAL ↔ (16 : Int) = 24) ∧
    (cell_of 16 = some CellType.MONSTER ↔ (16 : Int) = 3 ∨ (16 : Int) = 16) ∧
    (cell_of 16 = some CellType.GOAL → get_reward 16 = some 100) ∧
    (cell_of 16 = some CellType.MONSTER → get_reward 16 = some (-100)) ∧
    (cell_of 16 ≠ some CellType.GOAL → cell_of 16 ≠ some CellType.MONSTER →
      get_reward 16 = some (-(1 / 10))) ∧
    cell_of 0 = some CellType.START ∧ get_reward 0 = some (-(1 / 10)) :=
  get_reward_cases 16 (by decide) (by decide)

/-! ### The Q-table accessors -/

theorem action_indices_eq : action_indices = [0, 1, 2, 3] := by decide

theorem q_at_valid (Q : QTable) (s i : Int) (h0 : 0 ≤ s) (h1 : s < 25)
    (hi0 : 0 ≤ i) (hi1 : i < 4) : q_at Q s i = some (Q s i) := by
  simp [q_at, NUM_STATES, NUM_ACTIONS, GRID_ROWS, GRID_COLS, h0, h1, hi0, hi1]

theorem max_q_pick (q m : ℚ) : (if q > m then q else m) = max m q := by
  rcases le_or_lt q m with h | h
  · rw [if_neg (not_lt.mpr h), max_eq_left h]
  · rw [if_pos h, max_eq_right h.le]

/-- The loop of `get_max_q_value_for_state` on a valid index. -/
theorem max_q_fold (Q : QTable) (s : Int) (h0 : 0 ≤ s) (h1 : s < 25) (m : ℚ) :
    action_indices.foldlM (max_q_body Q s) m
      = some (max (max (max (max m (Q s 0)) (Q s 1)) (Q s 2)) (Q s 3)) := by
  rw [action_indices_eq]
  simp only [List.foldlM, max_q_body,
    q_at_valid Q s 0 h0 h1 (by decide) (by decide),
    q_at_valid Q s 1 h0 h1 (by decide) (by decide),
    q_at_valid Q s 2 h0 h1 (by decide) (by decide),
    q_at_valid Q s 3 h0 h1 (by decide) (by decide),
    Option.map_some', Option.some_bind, Option.bind_eq_bind, max_q_pick]
  rfl

theorem max_assoc_init (m a b c d : ℚ) :
    max (max (max (max m a) b) c) d = max m (max (max (max a b) c) d) := by
  simp only [max_assoc]

/-- Value of `get_max_q_value_for_state` on a valid index. -/
theorem get_max_q_value_eq (Q : QTable) (s : Int) (h0 : 0 ≤ s) (h1 : s < 25) :
    get_max_q_value_for_state Q s =
      (cell_of s).map fun cell =>
        if cell = CellType.GOAL ∨ cell = CellType.MONSTER then 0
        else max MAX_Q_INIT (row_max Q s) := by
  unfold get_max_q_value_for_state
  rw [if_neg (by simp only [NUM_STATES, GRID_ROWS, GRID_COLS]; omega),
    max_q_fold Q s h0 h1, max_assoc_init]
  rfl

theorem row_max_ge (Q : QTable) (s i : Int) (hi0 : 0 ≤ i) (hi1 : i < 4) :
    Q s i ≤ row_max Q s := by
  unfold row_max
  interval_cases i <;> simp

/-- Value of `get_max_q_value_for_state` by cases: `0` on a GOAL or MONSTER
cell, otherwise the larger of the initial value of the search and the
maximum of the row, which is the maximum of the row as soon as one stored
value is at least the initial value. -/
theorem get_max_q_value_cases (Q : QTable) (s : Int)
    (h0 : 0 ≤ s) (h1 : s < 25) :
    (cell_of s = some CellType.GOAL ∨ cell_of s = some CellType.MONSTER →
      get_max_q_value_for_state Q s = some 0) ∧
    (cell_of s ≠ some CellType.GOAL → cell_of s ≠ some CellType.MONSTER →
      get_max_q_value_for_state Q s = some (max MAX_Q_INIT (row_max Q s))) ∧
    (cell_of s ≠ some CellType.GOAL → cell_of s ≠ some CellType.MONSTER →
      (∃ i : Int, 0 ≤ i ∧ i < 4 ∧ MAX_Q_INIT ≤ Q s i) →
      get_max_q_value_for_state Q s = some (row_max Q s)) := by
  have hval := get_max_q_value_eq Q s h0 h1
  obtain ⟨cell, hcell⟩ : ∃ cell, cell_of s = some cell := ⟨_, cell_of_index s h0 h1⟩
  rw [hcell] at hval ⊢
  simp only [Option.map_some', Option.some.injEq, ne_eq] at hval ⊢
  refine ⟨fun h => ?_, fun hg hm => ?_, fun hg hm hex => ?_⟩
  · rw [hval, if_pos h]
  · rw [hval, if_neg (by tauto)]
  · obtain ⟨i, hi0, hi1, hi⟩ := hex
    rw [hval, if_neg (by tauto), max_eq_right (hi.trans (row_max_ge Q s i hi0 hi1))]

/-- Outside the tables training can produce, whose entries stay in
`[-100, 100]`: on a table that stores `-2e9` everywhere the search returns its
initial value `-1e9` at the START cell, not the stored maximum. -/
theorem get_max_q_value_for_state_not_row_max :
    cell_of 0 = some CellType.START ∧
    row_max (const_table (-2000000000)) 0 = -2000000000 ∧
    get_max_q_value_for_state (const_table (-2000000000)) 0 = some (-1000000000) ∧
    get_max_q_value_for_state (const_table (-2000000000)) 0
      ≠ some (row_max (const_table (-2000000000)) 0) := by
  have hc : cell_of 0 = some CellType.START := by decide
  have hr : row_max (const_table (-2000000000)) 0 = -2000000000 := by
    simp [row_max, const_table]
  have hv : get_max_q_value_for_state (const_table (-2000000000)) 0
      = some (-1000000000) := by
    rw [get_max_q_value_eq _ 0 (by decide) (by decide), hc, hr]
    have hne : ¬ (CellType.START = CellType.GOAL ∨ CellType.START = CellType.MONSTER) := by
      decide
    simp only [Option.map_some', if_neg hne]
    norm_num [MAX_Q_INIT]
  refine ⟨hc, hr, hv, ?_⟩
  rw [hv, hr]
  norm_num

/-! ### Action selection -/

/-- The update of the running maximum in the loop of `choose_action`. -/
theorem choose_action_body_valid (Q : QTable) (s : Int) (h0 : 0 ≤ s) (h1 : s < 25)
    (acc : ℚ × Action) (a : Action) :
    choose_action_body Q s acc a.toInt
      = some (if Q s a.toInt > acc.1 then (Q s a.toInt, a) else acc) := by
  have hq : q_at Q s a.toInt = some (Q s a.toInt) :=
    q_at_valid Q s _ h0 h1 (by cases a <;> decide) (by cases a <;> decide)
  have ha : Action.ofInt a.toInt = some a := by cases a <;> rfl
  unfold choose_action_body
  rw [hq, Option.some_bind, ha]
  split_ifs <;> rfl

/-- The exploit branch on a valid index, as four successive comparisons. -/
theorem best_action_eq (Q : QTable) (s : Int) (h0 : 0 ≤ s) (h1 : s < 25) :
    best_action Q s = some
      (let a0 : ℚ × Action := (MAX_Q_INIT, Action.UP)
       let a1 := if Q s 0 > a0.1 then (Q s 0, Action.UP) else a0
       let a2 := if Q s 1 > a1.1 then (Q s 1, Action.DOWN) else a1
       let a3 := if Q s 2 > a2.1 then (Q s 2, Action.LEFT) else a2
       let a4 := if Q s 3 > a3.1 then (Q s 3, Action.RIGHT) else a3
       a4.2) := by
  have e0 := fun acc => choose_action_body_valid Q s h0 h1 acc Action.UP
  have e1 := fun acc => choose_action_body_valid Q s h0 h1 acc Action.DOWN
  have e2 := fun acc => choose_action_body_valid Q s h0 h1 acc Action.LEFT
  have e3 := fun acc => choose_action_body_valid Q s h0 h1 acc Action.RIGHT
  simp only [Action.toInt] at e0 e1 e2 e3
  unfold best_action
  rw [action_indices_eq]
  simp only [List.foldlM, e0, e1, e2, e3, Option.some_bind, Option.bind_eq_bind,
    Option.map_some', Option.pure_def]

/-- The exploit branch always yields an action on a valid index. -/
theorem best_action_isSome (Q : QTable) (s : Int) (h0 : 0 ≤ s) (h1 : s < 25) :
    ∃ a, best_action Q s = some a := ⟨_, best_action_eq Q s h0 h1⟩

/-- Four successive strict comparisons against a running maximum select the
first position that reaches the maximum of the row, provided one value of
the row is above the initial value. -/
theorem first_max_chain (f : Int → ℚ) (m : ℚ)
    (hex : ∃ b : Action, m < f b.toInt) (a : Action)
    (ha : (let a0 : ℚ × Action := (m, Action.UP)
       let a1 := if f 0 > a0.1 then (f 0, Action.UP) else a0
       let a2 := if f 1 > a1.1 then (f 1, Action.DOWN) else a1
       let a3 := if f 2 > a2.1 then (f 2, Action.LEFT) else a2
       let a4 := if f 3 > a3.1 then (f 3, Action.RIGHT) else a3
       a4.2) = a) :
    (∀ b : Action, f b.toInt ≤ f a.toInt) ∧
    (∀ b : Action, b.toInt < a.toInt → f b.toInt < f a.toInt) := by
  have hex4 : m < f 0 ∨ m < f 1 ∨ m < f 2 ∨ m < f 3 := by
    obtain ⟨b, hb⟩ := hex
    cases b <;> simp only [Action.toInt] at hb <;> tauto
  clear hex
  simp only [gt_iff_lt] at ha
  split_ifs at ha <;> subst ha <;> simp only [not_lt] at * <;>
    (refine ⟨fun b => ?_, fun b hb => ?_⟩) <;> cases b <;>
    simp only [Action.toInt, lt_self_iff_false, Int.reduceLT] at * <;>
    first
    | done
    | (rcases hex4 with h | h | h | h <;> linarith)

/-- On a valid index whose row has a stored value above `-1e9`, the exploit
branch returns the first action that reaches the maximum of the row. -/
theorem best_action_first_max (Q : QTable) (s : Int) (h0 : 0 ≤ s) (h1 : s < 25)
    (hex : ∃ b : Action, MAX_Q_INIT < Q s b.toInt) :
    ∃ a, best_action Q s = some a ∧
      (∀ b : Action, Q s b.toInt ≤ Q s a.toInt) ∧
      (∀ b : Action, b.toInt < a.toInt → Q s b.toInt < Q s a.toInt) := by
  exact ⟨_, best_action_eq Q s h0 h1, first_max_chain (Q s) MAX_Q_INIT hex _ rfl⟩

theorem not_explores_zero (g : RandGen) : ¬ explores 0 g := by
  unfold explores unit_draw
  exact not_lt.mpr (div_nonneg (Nat.cast_nonneg _) (Nat.cast_nonneg _))

theorem choose_action_exploit_eq (Q : QTable) (s : Int) (epsilon : ℚ) (g : RandGen)
    (hx : ¬ explores epsilon g) :
    choose_action Q s epsilon g = (best_action Q s).map fun a => (a, (rand g).2) := by
  unfold choose_action
  simp only [if_neg hx]

/-- On a valid index whose row has a stored value above the initial value of
the search, the exploit branch of `choose_action` returns the first action
that reaches the maximum of the row. -/
theorem choose_action_exploit_above_init (Q : QTable) (s : Int) (epsilon : ℚ)
    (g : RandGen) (h0 : 0 ≤ s) (h1 : s < 25) (hx : ¬ explores epsilon g)
    (hex : ∃ b : Action, MAX_Q_INIT < Q s b.toInt) :
    ∃ a, choose_action Q s epsilon g = some (a, (rand g).2) ∧
      (∀ b : Action, Q s b.toInt ≤ Q s a.toInt) ∧
      (∀ b : Action, b.toInt < a.toInt → Q s b.toInt < Q s a.toInt) := by
  obtain ⟨a, ha, hmax, hfirst⟩ := best_action_first_max Q s h0 h1 hex
  refine ⟨a, ?_, hmax, hfirst⟩
  rw [choose_action_exploit_eq Q s epsilon g hx, ha]
  rfl

/-- Outside the tables training can produce, whose entries stay in
`[-100, 100]`: on `low_table`, whose row 0 stores `-2e9` for UP and `-1.5e9`
for RIGHT, the exploit branch keeps its default UP. -/
theorem choose_action_exploit_not_max :
    ¬ explores 0 (const_gen 0) ∧
    choose_action low_table 0 0 (const_gen 0)
      = some (Action.UP, (rand (const_gen 0)).2) ∧
    low_table 0 Action.UP.toInt < low_table 0 Action.RIGHT.toInt ∧
    ¬ (∀ b : Action, low_table 0 b.toInt ≤ low_table 0 Action.UP.toInt) := by
  have hlt : low_table 0 Action.UP.toInt < low_table 0 Action.RIGHT.toInt := by
    norm_num [low_table, Action.toInt]
  refine ⟨not_explores_zero _, ?_, hlt, fun h => ?_⟩
  · rw [choose_action_exploit_eq _ _ _ _ (not_explores_zero _),
      best_action_eq _ 0 (by decide) (by decide)]
    norm_num [low_table, MAX_Q_INIT]
  · exact absurd (h Action.RIGHT) (not_le.mpr hlt)

/-! ### One training step -/

theorem get_reward_isSome (s : Int) (h0 : 0 ≤ s) (h1 : s < 25) :
    ∃ r, get_reward s = some r := by
  have hrew : get_reward s = (cell_of s).map fun cell =>
      if cell = CellType.GOAL then (100 : ℚ)
      else if cell = CellType.MONSTER then -100 else -(1 / 10) := rfl
  rw [hrew, cell_of_index s h0 h1]
  exact ⟨_, rfl⟩

theorem get_max_q_value_isSome (Q : QTable) (s : Int) (h0 : 0 ≤ s) (h1 : s < 25) :
    ∃ m, get_max_q_value_for_state Q s = some m := by
  rw [get_max_q_value_eq Q s h0 h1, cell_of_index s h0 h1]
  exact ⟨_, rfl⟩

theorem q_write_valid (Q : QTable) (s : Int) (a : Action) (v : ℚ)
    (h0 : 0 ≤ s) (h1 : s < 25) :
    q_write Q s a.toInt v
      = some (fun t b => if t = s ∧ b = a.toInt then v else Q t b) := by
  have ha0 : 0 ≤ a.toInt := by cases a <;> decide
  have ha1 : a.toInt < 4 := by cases a <;> decide
  simp [q_write, NUM_STATES, NUM_ACTIONS, GRID_ROWS, GRID_COLS, h0, h1, ha0, ha1]

theorem ofInt_tmod_isSome (v : Nat) :
    ∃ a, Action.ofInt (Int.tmod (v : Int) NUM_ACTIONS) = some a := by
  have hnn : (0 : Int) ≤ (v : Int) := Int.ofNat_nonneg v
  have h : Int.tmod (v : Int) NUM_ACTIONS = (v : Int) % 4 := by
    simp only [NUM_ACTIONS]
    exact Int.tmod_eq_emod hnn (by decide)
  rw [h]
  have h4 : (v : Int) % 4 = 0 ∨ (v : Int) % 4 = 1 ∨ (v : Int) % 4 = 2 ∨ (v : Int) % 4 = 3 := by
    omega
  rcases h4 with e | e | e | e <;> rw [e] <;> exact ⟨_, rfl⟩

/-- On a valid index `choose_action` always returns an action. -/
theorem choose_action_isSome (Q : QTable) (s : Int) (epsilon : ℚ) (g : RandGen)
    (h0 : 0 ≤ s) (h1 : s < 25) :
    ∃ a g1, choose_action Q s epsilon g = some (a, g1) := by
  by_cases hx : explores epsilon g
  · obtain ⟨a, ha⟩ := ofInt_tmod_isSome (rand (rand g).2).1
    refine ⟨a, (rand (rand g).2).2, ?_⟩
    unfold choose_action
    simp only [if_pos hx, ha, Option.map_some']
  · obtain ⟨a, ha⟩ := best_action_isSome Q s h0 h1
    refine ⟨a, (rand g).2, ?_⟩
    rw [choose_action_exploit_eq Q s epsilon g hx, ha]
    rfl

/-- One training step, once the chosen action, the reward and the value of the
next state are known. -/
theorem q_learning_step_eq (Q : QTable) (s : Int) (epsilon : ℚ) (g : RandGen)
    (h0 : 0 ≤ s) (h1 : s < 25) (a : Action) (g1 : RandGen) (rwd mx : ℚ)
    (hc : choose_action Q s epsilon g = some (a, g1))
    (hr : get_reward (get_next_state s a g1).1 = some rwd)
    (hm : get_max_q_value_for_state Q (get_next_state s a g1).1 = some mx) :
    q_learning_step Q s epsilon g
      = some (fun t b => if t = s ∧ b = a.toInt then rwd + GAMMA * mx else Q t b,
          (get_next_state s a g1).1, (get_next_state s a g1).2) := by
  unfold q_learning_step
  simp only [hc, Option.some_bind, hr, hm, q_write_valid Q s a _ h0 h1, Option.map_some']

/-- The value of a state other than `s` does not depend on the entries of
row `s`. -/
theorem get_max_q_value_congr (Q Q2 : QTable) (t : Int) (h0 : 0 ≤ t) (h1 : t < 25)
    (hrow : ∀ b, Q2 t b = Q t b) :
    get_max_q_value_for_state Q2 t = get_max_q_value_for_state Q t := by
  rw [get_max_q_value_eq Q t h0 h1, get_max_q_value_eq Q2 t h0 h1]
  simp only [row_max, hrow]

theorem get_reward_index (s : Int) (h0 : 0 ≤ s) (h1 : s < 25) :
    get_reward s = some (if s = 24 then 100 else if s = 3 ∨ s = 16 then -100 else -(1 / 10)) := by
  have hrew : get_reward s = (cell_of s).map fun cell =>
      if cell = CellType.GOAL then (100 : ℚ)
      else if cell = CellType.MONSTER then -100 else -(1 / 10) := rfl
  rw [hrew, cell_of_index s h0 h1]
  by_cases e : s = 24 <;> by_cases e3 : s = 3 <;> by_cases e16 : s = 16 <;>
    by_cases e0 : s = 0 <;> simp [e, e3, e16, e0]

theorem get_max_q_value_index (Q : QTable) (s : Int) (h0 : 0 ≤ s) (h1 : s < 25) :
    get_max_q_value_for_state Q s
      = some (if s = 24 ∨ s = 3 ∨ s = 16 then 0 else max MAX_Q_INIT (row_max Q s)) := by
  rw [get_max_q_value_eq Q s h0 h1, cell_of_index s h0 h1]
  by_cases e : s = 24 <;> by_cases e3 : s = 3 <;> by_cases e16 : s = 16 <;>
    by_cases e0 : s = 0 <;> simp [e, e3, e16, e0]

/-- C4, as the code has it: one training step from a state `s` of `[0,25)`
(in particular from a non-terminal one) with chosen action `a` and realized
next state `s2` sets `Q[s][a]` to `get_reward(s2) + GAMMA * get_max_q_value_for_state(s2)`
with `GAMMA = 9/10`, the latter evaluated on the table before the write, also
when `s2 = s`; every other entry of the table is unchanged; and when
`s2 ≠ s` the old value of `Q[s][a]` has no influence on the new one: any table
that differs from the old one only at `Q[s][a]` gives the same value to `s2`. -/
theorem q_learning_step_update (Q : QTable) (s : Int) (epsilon : ℚ) (g : RandGen)
    (h0 : 0 ≤ s) (h1 : s < 25) :
    ∃ (a : Action) (g1 : RandGen) (rwd mx : ℚ) (Q2 : QTable),
      choose_action Q s epsilon g = some (a, g1) ∧
      get_reward (get_next_state s a g1).1 = some rwd ∧
      get_max_q_value_for_state Q (get_next_state s a g1).1 = some mx ∧
      q_learning_step Q s epsilon g
        = some (Q2, (get_next_state s a g1).1, (get_next_state s a g1).2) ∧
      Q2 s a.toInt = rwd + GAMMA * mx ∧ GAMMA = 9 / 10 ∧
      (∀ t b, ¬ (t = s ∧ b = a.toInt) → Q2 t b = Q t b) ∧
      ((get_next_state s a g1).1 ≠ s →
        ∀ Qalt : QTable, (∀ t b, ¬ (t = s ∧ b = a.toInt) → Qalt t b = Q t b) →
          get_max_q_value_for_state Qalt (get_next_state s a g1).1 = some mx) := by
  obtain ⟨a, g1, hc⟩ := choose_action_isSome Q s epsilon g h0 h1
  have hnext := get_next_state_range s a g1 h0 h1
  obtain ⟨rwd, hr⟩ := get_reward_isSome _ hnext.1 hnext.2
  obtain ⟨mx, hm⟩ := get_max_q_value_isSome Q _ hnext.1 hnext.2
  refine ⟨a, g1, rwd, mx, _, hc, hr, hm,
    q_learning_step_eq Q s epsilon g h0 h1 a g1 rwd mx hc hr hm, ?_, rfl, ?_, ?_⟩
  · simp
  · intro t b hne
    simp only [if_neg hne]
  · intro hs Qalt hagree
    rw [← hm]
    refine get_max_q_value_congr Q Qalt _ hnext.1 hnext.2 fun b => hagree _ b ?_
    exact fun h => hs h.1

theorem q_learning_step_update_witness :
    ∃ (a : Action) (g1 : RandGen) (rwd mx : ℚ) (Q2 : QTable),
      choose_action q_table_init 0 1 (const_gen 0) = some (a, g1) ∧
      get_reward (get_next_state 0 a g1).1 = some rwd ∧
      get_max_q_value_for_state q_table_init (get_next_state 0 a g1).1 = some mx ∧
      q_learning_step q_table_init 0 1 (const_gen 0)
        = some (Q2, (get_next_state 0 a g1).1, (get_next_state 0 a g1).2) ∧
      Q2 0 a.toInt = rwd + GAMMA * mx ∧ GAMMA = 9 / 10 ∧
      (∀ t b, ¬ (t = 0 ∧ b = a.toInt) → Q2 t b = q_table_init t b) ∧
      ((get_next_state 0 a g1).1 ≠ 0 →
        ∀ Qalt : QTable, (∀ t b, ¬ (t = 0 ∧ b = a.toInt) → Qalt t b = q_table_init t b) →
          get_max_q_value_for_state Qalt (get_next_state 0 a g1).1 = some mx) :=
  q_learning_step_update q_table_init 0 1 (const_gen 0) (by decide) (by decide)

/-- C4 as stated fails in its clause that the old value of `Q[s][a]` has no
influence on the new one. `q_table_init` and `bumped_table` differ only at
state 0, action UP. From state 0 both choose UP and both stay at state 0
(wall), yet the new value of the entry is `-1/10` from the first table and
`89/10` from the second. -/
theorem q_learning_step_old_value_matters :
    (∀ t b, ¬ (t = 0 ∧ b = Action.UP.toInt) → bumped_table t b = q_table_init t b) ∧
    choose_action q_table_init 0 0 (const_gen 0)
      = some (Action.UP, (rand (const_gen 0)).2) ∧
    choose_action bumped_table 0 0 (const_gen 0)
      = some (Action.UP, (rand (const_gen 0)).2) ∧
    (get_next_state 0 Action.UP (rand (const_gen 0)).2).1 = 0 ∧
    (q_learning_step q_table_init 0 0 (const_gen 0)).map
      (fun r => (r.1 0 Action.UP.toInt, r.2.1)) = some (-(1 / 10), 0) ∧
    (q_learning_step bumped_table 0 0 (const_gen 0)).map
      (fun r => (r.1 0 Action.UP.toInt, r.2.1)) = some (89 / 10, 0) := by
  have hc1 : choose_action q_table_init 0 0 (const_gen 0)
      = some (Action.UP, (rand (const_gen 0)).2) := by
    rw [choose_action_exploit_eq _ _ _ _ (not_explores_zero _),
      best_action_eq _ 0 (by decide) (by decide)]
    norm_num [q_table_init, MAX_Q_INIT]
  have hc2 : choose_action bumped_table 0 0 (const_gen 0)
      = some (Action.UP, (rand (const_gen 0)).2) := by
    rw [choose_action_exploit_eq _ _ _ _ (not_explores_zero _),
      best_action_eq _ 0 (by decide) (by decide)]
    norm_num [bumped_table, MAX_Q_INIT]
  have hn : (get_next_state 0 Action.UP (rand (const_gen 0)).2).1 = 0 := by decide
  have hr : get_reward (get_next_state 0 Action.UP (rand (const_gen 0)).2).1
      = some (-(1 / 10)) := by
    rw [hn, get_reward_index 0 (by decide) (by decide)]
    norm_num
  have hm1 : get_max_q_value_for_state q_table_init
      (get_next_state 0 Action.UP (rand (const_gen 0)).2).1 = some 0 := by
    rw [hn, get_max_q_value_index _ 0 (by decide) (by decide)]
    norm_num [row_max, q_table_init, MAX_Q_INIT]
  have hm2 : get_max_q_value_for_state bumped_table
      (get_next_state 0 Action.UP (rand (const_gen 0)).2).1 = some 10 := by
    rw [hn, get_max_q_value_index _ 0 (by decide) (by decide)]
    norm_num [row_max, bumped_table, MAX_Q_INIT]
  refine ⟨?_, hc1, hc2, hn, ?_, ?_⟩
  · intro t b hne
    simp only [Action.toInt] at hne
    simp only [bumped_table, q_table_init, if_neg hne]
  · rw [q_learning_step_eq _ 0 0 _ (by decide) (by decide) _ _ _ _ hc1 hr hm1]
    simp only [Option.map_some', hn]
    norm_num [GAMMA]
  · rw [q_learning_step_eq _ 0 0 _ (by decide) (by decide) _ _ _ _ hc2 hr hm2]
    simp only [Option.map_some', hn]
    norm_num [GAMMA]

/-! ### Episodes and the decay of epsilon -/

/-- From a valid index a training step is defined and reaches a valid index. -/
theorem q_learning_step_isSome (Q : QTable) (s : Int) (epsilon : ℚ) (g : RandGen)
    (h0 : 0 ≤ s) (h1 : s < 25) :
    ∃ r, q_learning_step Q s epsilon g = some r ∧ 0 ≤ r.2.1 ∧ r.2.1 < 25 := by
  obtain ⟨a, g1, hc⟩ := choose_action_isSome Q s epsilon g h0 h1
  have hnext := get_next_state_range s a g1 h0 h1
  obtain ⟨rwd, hr⟩ := get_reward_isSome _ hnext.1 hnext.2
  obtain ⟨mx, hm⟩ := get_max_q_value_isSome Q _ hnext.1 hnext.2
  exact ⟨_, q_learning_step_eq Q s epsilon g h0 h1 a g1 rwd mx hc hr hm, hnext.1, hnext.2⟩

/-- The episode loop returns from every state with a valid index, and ends
on a valid index. -/
theorem episode_loop_isSome (epsilon : ℚ) (n : Nat) :
    ∀ e : Episode, MAX_STEPS_PER_EPISODE - e.steps = n →
      0 ≤ e.current_state → e.current_state < 25 →
      ∃ e2, episode_loop epsilon e = some e2 ∧
        0 ≤ e2.current_state ∧ e2.current_state < 25 := by
  induction n with
  | zero =>
    intro e hn h0 h1
    rw [episode_loop, if_neg (by omega)]
    exact ⟨e, rfl, h0, h1⟩
  | succ n ih =>
    intro e hn h0 h1
    obtain ⟨cell, hcell⟩ : ∃ cell, cell_of e.current_state = some cell :=
      ⟨_, cell_of_index _ h0 h1⟩
    rw [episode_loop, if_pos (by omega), hcell]
    simp only []
    by_cases hterm : cell = CellType.GOAL ∨ cell = CellType.MONSTER
    · rw [if_pos hterm]
      exact ⟨e, rfl, h0, h1⟩
    · obtain ⟨r, hr, hr0, hr1⟩ :=
        q_learning_step_isSome e.q_table e.current_state epsilon e.gen h0 h1
      rw [if_neg hterm, hr]
      exact ih _ (by simp only []; omega) hr0 hr1

theorem start_index : to_state_index start_state_index.1 start_state_index.2 = 0 := by
  decide

/-- One iteration of the training loop is defined, and its effect on epsilon
is `decay_epsilon`. -/
theorem run_episode_epsilon (t : Trainer) :
    ∃ t2, run_episode t = some t2 ∧
      t2.current_epsilon = decay_epsilon t.current_epsilon := by
  obtain ⟨e2, he2, _⟩ := episode_loop_isSome t.current_epsilon _
    { q_table := t.q_table, current_state := 0, steps := 0, gen := t.gen } rfl
    (le_refl (0 : Int)) (by show (0 : Int) < 25; decide)
  refine ⟨⟨e2.q_table, decay_epsilon t.current_epsilon, e2.gen⟩, ?_, rfl⟩
  unfold run_episode
  simp only [start_index, he2, Option.map_some']

/-- The first `n` iterations of the training loop are defined, and apply
`decay_epsilon` `n` times to epsilon. -/
theorem run_episodes_epsilon (n : Nat) :
    ∀ t : Trainer, ∃ t2, run_episodes n t = some t2 ∧
      t2.current_epsilon = decay_epsilon^[n] t.current_epsilon := by
  induction n with
  | zero => exact fun t => ⟨t, rfl, rfl⟩
  | succ n ih =>
    intro t
    obtain ⟨t1, h1, e1⟩ := run_episode_epsilon t
    obtain ⟨t2, h2, e2⟩ := ih t1
    refine ⟨t2, ?_, ?_⟩
    · simp only [run_episodes, h1, Option.some_bind, h2]
    · rw [e2, e1, Function.iterate_succ_apply]

theorem decay_pow_918 : EPSILON_MIN < EPSILON_DECAY ^ 918 := by
  norm_num [EPSILON_MIN, EPSILON_DECAY]

theorem decay_pow_919 : EPSILON_DECAY ^ 919 < EPSILON_MIN := by
  norm_num [EPSILON_MIN, EPSILON_DECAY]

theorem decay_pow_above_min (n : Nat) (hn : n ≤ 918) : EPSILON_MIN < EPSILON_DECAY ^ n := by
  have hd0 : (0 : ℚ) ≤ EPSILON_DECAY := by norm_num [EPSILON_DECAY]
  have hd1 : EPSILON_DECAY ≤ 1 := by norm_num [EPSILON_DECAY]
  exact lt_of_lt_of_le decay_pow_918 (pow_le_pow_of_le_one hd0 hd1 hn)

/-- Closed form of the repeated decay: the factor is applied at each of the
first 919 episodes and at none afterwards. -/
theorem decay_epsilon_iterate (n : Nat) :
    decay_epsilon^[n] EPSILON_START = EPSILON_START * EPSILON_DECAY ^ (min n 919) := by
  induction n with
  | zero => simp [EPSILON_START]
  | succ n ih =>
    rw [Function.iterate_succ_apply', ih]
    rcases Nat.lt_or_ge n 919 with h | h
    · rw [min_eq_left h.le, min_eq_left (Nat.succ_le_of_lt h)]
      have habove := decay_pow_above_min n (by omega)
      unfold decay_epsilon
      rw [if_pos (by simpa [EPSILON_START] using habove), pow_succ, mul_assoc]
    · rw [min_eq_right h, min_eq_right (by omega)]
      unfold decay_epsilon
      rw [if_neg (by simpa [EPSILON_START] using not_lt.mpr decay_pow_919.le)]

/-- C7, as the code has it: with exact arithmetic, for every number `N` of
completed episodes the training loop is defined and the exploration rate it
holds equals `EPSILON_START * EPSILON_DECAY ^ min N 919`. This is
`max EPSILON_MIN (EPSILON_START * EPSILON_DECAY ^ N)` for `N ≤ 918`; for
`N ≥ 919` it is the constant `EPSILON_DECAY ^ 919`, strictly below
`EPSILON_MIN`. -/
theorem run_episodes_epsilon_closed_form (N : Nat) (g : RandGen) :
    ∃ t, run_episodes N (trainer_init g) = some t ∧
      t.current_epsilon = EPSILON_START * EPSILON_DECAY ^ (min N 919) ∧
      (N ≤ 918 →
        t.current_epsilon = max EPSILON_MIN (EPSILON_START * EPSILON_DECAY ^ N)) ∧
      (919 ≤ N →
        t.current_epsilon = EPSILON_DECAY ^ 919 ∧ t.current_epsilon < EPSILON_MIN) := by
  obtain ⟨t, ht, he⟩ := run_episodes_epsilon N (trainer_init g)
  have hstart : (trainer_init g).current_epsilon = EPSILON_START := rfl
  rw [hstart, decay_epsilon_iterate N] at he
  refine ⟨t, ht, he, fun hN => ?_, fun hN => ?_⟩
  · rw [he, min_eq_left (by omega)]
    have habove := decay_pow_above_min N hN
    rw [max_eq_right (by simpa [EPSILON_START] using habove.le)]
  · have hone : EPSILON_START * EPSILON_DECAY ^ 919 = EPSILON_DECAY ^ 919 := by
      simp only [EPSILON_START, one_mul]
    rw [he, min_eq_right hN, hone]
    exact ⟨rfl, decay_pow_919⟩

/-- C7 as stated fails at `N = 919`: after 919 episodes the exploration rate
is `EPSILON_DECAY ^ 919`, which is below `EPSILON_MIN`, whereas
`max EPSILON_MIN (EPSILON_START * EPSILON_DECAY ^ 919)` is `EPSILON_MIN`. -/
theorem epsilon_after_919_below_min :
    (run_episodes 919 (trainer_init (const_gen 0))).map (fun t => t.current_epsilon)
      = some (EPSILON_DECAY ^ 919) ∧
    EPSILON_DECAY ^ 919 < EPSILON_MIN ∧
    max EPSILON_MIN (EPSILON_START * EPSILON_DECAY ^ 919) = EPSILON_MIN ∧
    (run_episodes 919 (trainer_init (const_gen 0))).map (fun t => t.current_epsilon)
      ≠ some (max EPSILON_MIN (EPSILON_START * EPSILON_DECAY ^ 919)) := by
  obtain ⟨t, ht, he⟩ := run_episodes_epsilon 919 (trainer_init (const_gen 0))
  have hstart : (trainer_init (const_gen 0)).current_epsilon = EPSILON_START := rfl
  rw [hstart, decay_epsilon_iterate 919] at he
  simp only [min_self, EPSILON_START, one_mul] at he
  have hmax : max EPSILON_MIN (EPSILON_START * EPSILON_DECAY ^ 919) = EPSILON_MIN := by
    simp only [EPSILON_START, one_mul]
    exact max_eq_left decay_pow_919.le
  have hval : (run_episodes 919 (trainer_init (const_gen 0))).map
      (fun t => t.current_epsilon) = some (EPSILON_DECAY ^ 919) := by
    rw [ht, Option.map_some', he]
  refine ⟨hval, decay_pow_919, hmax, ?_⟩
  rw [hval, hmax, Ne, Option.some.injEq]
  exact ne_of_lt decay_pow_919

/-! ### The invalid index, the start cell and playback selection -/

/-- C11: for all integers `r` and `c`, `to_state_index r c` is the invalid
index `-1` if and only if `r` is outside `[0,5)` or `c` is outside `[0,5)`;
otherwise it is `r * 5 + c`, which is not `-1`. -/
theorem to_state_index_invalid_iff (r c : Int) :
    (to_state_index r c = -1 ↔ (r < 0 ∨ 5 ≤ r ∨ c < 0 ∨ 5 ≤ c)) ∧
    (¬ (r < 0 ∨ 5 ≤ r ∨ c < 0 ∨ 5 ≤ c) →
      to_state_index r c = r * 5 + c ∧ to_state_index r c ≠ -1) := by
  unfold to_state_index
  simp only [GRID_ROWS, GRID_COLS]
  constructor
  · constructor
    · intro h
      split_ifs at h with hin
      · omega
      · omega
    · intro h
      rw [if_neg (by omega)]
  · intro h
    rw [if_pos (by omega)]
    exact ⟨rfl, by omega⟩

/-- C14: for every Q-table, every index `s` in `[0,25)` and every state of
the random generator, `choose_action` with `epsilon = 0` does not take the
explore branch; its result is the action of the exploit branch, the same for
any two states of the generator. -/
theorem choose_action_zero_deterministic (Q : QTable) (s : Int) (g g2 : RandGen)
    (h0 : 0 ≤ s) (h1 : s < 25) :
    ¬ explores 0 g ∧
    ∃ a, best_action Q s = some a ∧
      choose_action Q s 0 g = some (a, (rand g).2) ∧
      choose_action Q s 0 g2 = some (a, (rand g2).2) := by
  obtain ⟨a, ha⟩ := best_action_isSome Q s h0 h1
  refine ⟨not_explores_zero g, a, ha, ?_, ?_⟩
  · rw [choose_action_exploit_eq Q s 0 g (not_explores_zero g), ha]
    rfl
  · rw [choose_action_exploit_eq Q s 0 g2 (not_explores_zero g2), ha]
    rfl

theorem choose_action_zero_deterministic_witness :
    ¬ explores 0 (const_gen 0) ∧
    ∃ a, best_action q_table_init 7 = some a ∧
      choose_action q_table_init 7 0 (const_gen 0) = some (a, (rand (const_gen 0)).2) ∧
      choose_action q_table_init 7 0 (const_gen 32767)
        = some (a, (rand (const_gen 32767)).2) :=
  choose_action_zero_deterministic q_table_init 7 (const_gen 0) (const_gen 32767)
    (by decide) (by decide)

theorem grid_at_start_iff (r c : Int) :
    grid_at r c = some CellType.START ↔ r = 0 ∧ c = 0 := by
  by_cases hin : 0 ≤ r ∧ r < 5 ∧ 0 ≤ c ∧ c < 5
  · obtain ⟨hr0, hr1, hc0, hc1⟩ := hin
    interval_cases r <;> interval_cases c <;> decide
  · constructor
    · intro h
      unfold grid_at at h
      rw [if_neg (by simpa only [GRID_ROWS, GRID_COLS] using hin)] at h
      exact absurd h (by simp)
    · rintro ⟨rfl, rfl⟩
      exact absurd (by decide) hin

/-- C15: the fixed grid contains exactly one START cell; it is the cell at
`start_state_index = (0,0)`, whose state index is 0; every training episode
and the playback begin at that index; and that cell is neither GOAL nor
MONSTER. -/
theorem start_cell_unique :
    (grid.flatten.count CellType.START = 1) ∧
    (∀ r c : Int, grid_at r c = some CellType.START ↔ r = 0 ∧ c = 0) ∧
    start_state_index = (0, 0) ∧
    to_state_index start_state_index.1 start_state_index.2 = 0 ∧
    (∀ t : Trainer, run_episode t =
      (episode_loop t.current_epsilon ⟨t.q_table, 0, 0, t.gen⟩).map fun e =>
        ⟨e.q_table, decay_epsilon t.current_epsilon, e.gen⟩) ∧
    (∀ (Q : QTable) (g : RandGen), play_game Q g = play_loop Q ⟨0, 0, g, [Line.banner]⟩) ∧
    cell_of 0 = some CellType.START ∧ ¬ is_terminal 0 := by
  refine ⟨by decide, grid_at_start_iff, rfl, by decide, ?_, ?_, by decide, by decide⟩
  · intro t
    unfold run_episode
    simp only [start_index]
  · intro Q g
    unfold play_game
    simp only [start_index]

/-- C18: for every index `s` in `[0,25)`, every action and every state of the
random generator, `get_next_state` returns `s` if and only if the one-cell
displacement of the action from `s` leaves the grid, so a move that stays on
the grid always changes the state; and whenever `get_next_state` returns `s`
the edge test of the wall-hit condition of `play_game` holds. -/
theorem get_next_state_fixed_iff (s : Int) (a : Action) (g : RandGen)
    (h0 : 0 ≤ s) (h1 : s < 25) :
    ((get_next_state s a g).1 = s ↔
      ¬ in_grid ((to_row_col s).1 + (displacement a).1)
        ((to_row_col s).2 + (displacement a).2)) ∧
    (in_grid ((to_row_col s).1 + (displacement a).1)
        ((to_row_col s).2 + (displacement a).2) → (get_next_state s a g).1 ≠ s) ∧
    ((get_next_state s a g).1 = s → edge_test a (to_row_col s)) := by
  have hiff : (get_next_state s a g).1 = s ↔
      ¬ in_grid ((to_row_col s).1 + (displacement a).1)
        ((to_row_col s).2 + (displacement a).2) := by
    rw [get_next_state_unfold s a g h0, to_row_col_nonneg s h0]
    cases a <;> simp only [displacement, in_grid, to_state_index, GRID_ROWS, GRID_COLS] <;>
      split_ifs <;> constructor <;> intro h <;> omega
  refine ⟨hiff, fun hin heq => hiff.mp heq hin, fun heq => ?_⟩
  have hout := hiff.mp heq
  rw [to_row_col_nonneg s h0] at hout ⊢
  unfold edge_test
  cases a <;> simp only [displacement, in_grid, GRID_ROWS, GRID_COLS] at hout ⊢ <;>
    simp <;> omega

theorem get_next_state_fixed_iff_witness :
    ((get_next_state 4 Action.RIGHT (const_gen 0)).1 = 4 ↔
      ¬ in_grid ((to_row_col 4).1 + (displacement Action.RIGHT).1)
        ((to_row_col 4).2 + (displacement Action.RIGHT).2)) ∧
    (in_grid ((to_row_col 4).1 + (displacement Action.RIGHT).1)
        ((to_row_col 4).2 + (displacement Action.RIGHT).2) →
      (get_next_state 4 Action.RIGHT (const_gen 0)).1 ≠ 4) ∧
    ((get_next_state 4 Action.RIGHT (const_gen 0)).1 = 4 →
      edge_test Action.RIGHT (to_row_col 4)) :=
  get_next_state_fixed_iff 4 Action.RIGHT (const_gen 0) (by decide) (by decide)

/-! ### Monotone decay of epsilon -/

theorem epsilon_after_eq (N : Nat) (g : RandGen) :
    epsilon_after N g = some (EPSILON_DECAY ^ (min N 919)) := by
  obtain ⟨t, ht, he⟩ := run_episodes_epsilon N (trainer_init g)
  have hstart : (trainer_init g).current_epsilon = EPSILON_START := rfl
  rw [hstart, decay_epsilon_iterate N] at he
  unfold epsilon_after
  rw [ht, Option.map_some', he]
  simp only [EPSILON_START, one_mul]

/-- C19: with exact arithmetic, after every number `N` of episodes the
exploration rate held by `run_q_learning` is defined, does not increase at
the next episode, is at most 1 and strictly greater than
`EPSILON_MIN * EPSILON_DECAY`, and once it is at or below `EPSILON_MIN` it has
the same value after every later number of episodes. -/
theorem epsilon_monotone_decay (N : Nat) (g : RandGen) :
    ∃ e e2 : ℚ, epsilon_after N g = some e ∧ epsilon_after (N + 1) g = some e2 ∧
      e2 ≤ e ∧ e ≤ 1 ∧ EPSILON_MIN * EPSILON_DECAY < e ∧
      EPSILON_MIN * EPSILON_DECAY = 995 / 100000 ∧
      (e ≤ EPSILON_MIN → ∀ M : Nat, N ≤ M → epsilon_after M g = some e) := by
  have hd0 : (0 : ℚ) ≤ EPSILON_DECAY := by norm_num [EPSILON_DECAY]
  have hdpos : (0 : ℚ) < EPSILON_DECAY := by norm_num [EPSILON_DECAY]
  have hd1 : EPSILON_DECAY ≤ 1 := by norm_num [EPSILON_DECAY]
  refine ⟨_, _, epsilon_after_eq N g, epsilon_after_eq (N + 1) g, ?_, ?_, ?_, ?_, ?_⟩
  · exact pow_le_pow_of_le_one hd0 hd1 (min_le_min (Nat.le_succ N) le_rfl)
  · exact pow_le_one₀ hd0 hd1
  · have h919 : EPSILON_MIN * EPSILON_DECAY < EPSILON_DECAY ^ 919 := by
      rw [pow_succ]
      exact mul_lt_mul_of_pos_right decay_pow_918 hdpos
    exact lt_of_lt_of_le h919 (pow_le_pow_of_le_one hd0 hd1 (min_le_right N 919))
  · norm_num [EPSILON_MIN, EPSILON_DECAY]
  · intro hle M hNM
    have hN : 919 ≤ N := by
      by_contra hlt
      have habove := decay_pow_above_min N (by omega)
      rw [min_eq_left (by omega)] at hle
      exact absurd hle (not_le.mpr habove)
    rw [epsilon_after_eq M g, min_eq_right hN, min_eq_right (hN.trans hNM)]

/-! ### Invariants of the episode loop and of training -/

theorem is_terminal_iff (s : Int) (h0 : 0 ≤ s) (h1 : s < 25) :
    is_terminal s ↔ s = 24 ∨ s = 3 ∨ s = 16 := by
  unfold is_terminal
  rw [cell_of_index s h0 h1]
  by_cases e : s = 24 <;> by_cases e3 : s = 3 <;> by_cases e16 : s = 16 <;>
    by_cases e0 : s = 0 <;> simp [e, e3, e16, e0]

/-- One training step from a valid index, with the written value spelled out. -/
theorem q_learning_step_value (Q : QTable) (s : Int) (epsilon : ℚ) (g : RandGen)
    (h0 : 0 ≤ s) (h1 : s < 25) :
    ∃ (a : Action) (s2 : Int) (g2 : RandGen), 0 ≤ s2 ∧ s2 < 25 ∧
      q_learning_step Q s epsilon g
        = some (fun t b => if t = s ∧ b = a.toInt then
            (if s2 = 24 then 100 else if s2 = 3 ∨ s2 = 16 then -100 else -(1 / 10))
              + GAMMA * (if s2 = 24 ∨ s2 = 3 ∨ s2 = 16 then 0
                  else max MAX_Q_INIT (row_max Q s2))
            else Q t b, s2, g2) := by
  obtain ⟨a, g1, hc⟩ := choose_action_isSome Q s epsilon g h0 h1
  have hnext := get_next_state_range s a g1 h0 h1
  exact ⟨a, _, _, hnext.1, hnext.2,
    q_learning_step_eq Q s epsilon g h0 h1 a g1 _ _ hc
      (get_reward_index _ hnext.1 hnext.2) (get_max_q_value_index Q _ hnext.1 hnext.2)⟩

/-- Induction principle for the episode loop: a property of the loop state
that every iteration from a valid, non-terminal state preserves holds when
the loop returns, and the loop returns on a GOAL or MONSTER cell or with the
step cap reached. -/
theorem episode_loop_induct (epsilon : ℚ) (P : Episode → Prop)
    (hstep : ∀ (e : Episode) (r : QTable × Int × RandGen), P e →
      0 ≤ e.current_state → e.current_state < 25 → e.steps < MAX_STEPS_PER_EPISODE →
      ¬ is_terminal e.current_state →
      q_learning_step e.q_table e.current_state epsilon e.gen = some r →
      P ⟨r.1, r.2.1, e.steps + 1, r.2.2⟩) (n : Nat) :
    ∀ e : Episode, MAX_STEPS_PER_EPISODE - e.steps = n →
      0 ≤ e.current_state → e.current_state < 25 → P e →
      ∃ e2, episode_loop epsilon e = some e2 ∧
        0 ≤ e2.current_state ∧ e2.current_state < 25 ∧ P e2 ∧
        (is_terminal e2.current_state ∨ MAX_STEPS_PER_EPISODE ≤ e2.steps) ∧
        e.steps ≤ e2.steps ∧
        (e.steps ≤ MAX_STEPS_PER_EPISODE → e2.steps ≤ MAX_STEPS_PER_EPISODE) := by
  induction n with
  | zero =>
    intro e hn h0 h1 hP
    rw [episode_loop, if_neg (by omega)]
    exact ⟨e, rfl, h0, h1, hP, Or.inr (by omega), le_rfl, id⟩
  | succ n ih =>
    intro e hn h0 h1 hP
    obtain ⟨cell, hcell⟩ : ∃ cell, cell_of e.current_state = some cell :=
      ⟨_, cell_of_index _ h0 h1⟩
    rw [episode_loop, if_pos (by omega), hcell]
    simp only []
    by_cases hterm : cell = CellType.GOAL ∨ cell = CellType.MONSTER
    · rw [if_pos hterm]
      refine ⟨e, rfl, h0, h1, hP, Or.inl ?_, le_rfl, id⟩
      unfold is_terminal
      rw [hcell]
      rcases hterm with h | h
      · exact Or.inl (by rw [h])
      · exact Or.inr (by rw [h])
    · have hnt : ¬ is_terminal e.current_state := by
        unfold is_terminal
        rw [hcell]
        simpa only [Option.some.injEq] using hterm
      obtain ⟨r, hr, hr0, hr1⟩ :=
        q_learning_step_isSome e.q_table e.current_state epsilon e.gen h0 h1
      rw [if_neg hterm, hr]
      obtain ⟨e2, he2, v0, v1, hP2, hend, hle, hcap⟩ :=
        ih ⟨r.1, r.2.1, e.steps + 1, r.2.2⟩ (by simp only []; omega) hr0 hr1
          (hstep e r hP h0 h1 (by omega) hnt hr)
      refine ⟨e2, he2, v0, v1, hP2, hend, ?_, fun _ => hcap ?_⟩
      · exact (Nat.le_succ _).trans hle
      · show e.steps + 1 ≤ MAX_STEPS_PER_EPISODE
        omega

/-- C13: for every Q-table, every epsilon and every state of the random
generator, a training episode starts at index 0; its loop returns, with at
most `MAX_STEPS_PER_EPISODE = 100` transitions counted in `steps`, on a GOAL
or MONSTER cell or after exactly 100 transitions; from a state whose cell is
GOAL or MONSTER the loop returns that state unchanged, so no transition
follows; and every iteration from another state below the cap makes exactly
one transition and adds one to `steps`. -/
theorem episode_loop_total (Q : QTable) (epsilon : ℚ) (g : RandGen) :
    to_state_index start_state_index.1 start_state_index.2 = 0 ∧
    MAX_STEPS_PER_EPISODE = 100 ∧
    (∃ e2, episode_loop epsilon ⟨Q, 0, 0, g⟩ = some e2 ∧
      0 ≤ e2.current_state ∧ e2.current_state < 25 ∧ e2.steps ≤ 100 ∧
      (is_terminal e2.current_state ∨ e2.steps = 100)) ∧
    (∀ e : Episode, 0 ≤ e.current_state → e.current_state < 25 →
      is_terminal e.current_state → episode_loop epsilon e = some e) ∧
    (∀ e : Episode, 0 ≤ e.current_state → e.current_state < 25 →
      ¬ is_terminal e.current_state → e.steps < 100 →
      ∃ r, q_learning_step e.q_table e.current_state epsilon e.gen = some r ∧
        episode_loop epsilon e
          = episode_loop epsilon ⟨r.1, r.2.1, e.steps + 1, r.2.2⟩) := by
  refine ⟨by decide, rfl, ?_, ?_, ?_⟩
  · obtain ⟨e2, he2, v0, v1, -, hend, -, hcap⟩ :=
      episode_loop_induct epsilon (fun _ => True) (fun _ _ _ _ _ _ _ _ => trivial) _
        ⟨Q, 0, 0, g⟩ rfl (le_refl (0 : Int)) (by show (0 : Int) < 25; decide) trivial
    have hc : e2.steps ≤ MAX_STEPS_PER_EPISODE := hcap (Nat.zero_le _)
    refine ⟨e2, he2, v0, v1, hc, ?_⟩
    rcases hend with h | h
    · exact Or.inl h
    · exact Or.inr (le_antisymm hc h)
  · intro e h0 h1 hterm
    by_cases hs : e.steps < MAX_STEPS_PER_EPISODE
    · obtain ⟨cell, hcell⟩ : ∃ cell, cell_of e.current_state = some cell :=
        ⟨_, cell_of_index _ h0 h1⟩
      unfold is_terminal at hterm
      rw [hcell] at hterm
      simp only [Option.some.injEq] at hterm
      rw [episode_loop, if_pos hs, hcell]
      simp only [if_pos hterm]
    · rw [episode_loop, if_neg hs]
  · intro e h0 h1 hnt hs
    obtain ⟨cell, hcell⟩ : ∃ cell, cell_of e.current_state = some cell :=
      ⟨_, cell_of_index _ h0 h1⟩
    unfold is_terminal at hnt
    rw [hcell] at hnt
    simp only [Option.some.injEq] at hnt
    obtain ⟨r, hr, -, -⟩ :=
      q_learning_step_isSome e.q_table e.current_state epsilon e.gen h0 h1
    refine ⟨r, hr, ?_⟩
    conv_lhs => rw [episode_loop]
    rw [if_pos (by simpa only [MAX_STEPS_PER_EPISODE] using hs), hcell]
    simp only [if_neg hnt, hr]

/-- A property of the table that every training step from a valid,
non-terminal state preserves holds after any number of episodes. -/
theorem run_episodes_invariant (I : QTable → Prop)
    (hstep : ∀ (Q : QTable) (s : Int) (epsilon : ℚ) (g : RandGen)
      (r : QTable × Int × RandGen), I Q → 0 ≤ s → s < 25 → ¬ is_terminal s →
      q_learning_step Q s epsilon g = some r → I r.1) (n : Nat) :
    ∀ t : Trainer, I t.q_table → ∃ t2, run_episodes n t = some t2 ∧ I t2.q_table := by
  induction n with
  | zero => exact fun t ht => ⟨t, rfl, ht⟩
  | succ n ih =>
    intro t ht
    obtain ⟨e2, he2, -, -, hI, -⟩ :=
      episode_loop_induct t.current_epsilon (fun e => I e.q_table)
        (fun e r hP h0 h1 _ hnt hr => hstep _ _ _ _ r hP h0 h1 hnt hr) _
        ⟨t.q_table, 0, 0, t.gen⟩ rfl (le_refl (0 : Int))
        (by show (0 : Int) < 25; decide) ht
    have hrun : run_episode t
        = some ⟨e2.q_table, decay_epsilon t.current_epsilon, e2.gen⟩ := by
      unfold run_episode
      simp only [start_index, he2, Option.map_some']
    obtain ⟨t2, ht2, hI2⟩ := ih ⟨e2.q_table, decay_epsilon t.current_epsilon, e2.gen⟩ hI
    exact ⟨t2, by simp only [run_episodes, hrun, Option.some_bind, ht2], hI2⟩

theorem row_max_bounds (Q : QTable) (hQ : q_bounded Q) (s : Int) :
    -100 ≤ max MAX_Q_INIT (row_max Q s) ∧ max MAX_Q_INIT (row_max Q s) ≤ 100 := by
  have h0 := hQ s 0
  have h1 := hQ s 1
  have h2 := hQ s 2
  have h3 := hQ s 3
  have hinit : MAX_Q_INIT ≤ 100 := by norm_num [MAX_Q_INIT]
  constructor
  · exact le_max_of_le_right (le_max_of_le_left (le_max_of_le_left (le_max_of_le_left h0.1)))
  · exact max_le hinit (max_le (max_le (max_le h0.2 h1.2) h2.2) h3.2)

/-- A training step from a valid index keeps every entry in `[-100, 100]`. -/
theorem q_learning_step_bounded (Q : QTable) (s : Int) (epsilon : ℚ) (g : RandGen)
    (r : QTable × Int × RandGen) (hQ : q_bounded Q) (h0 : 0 ≤ s) (h1 : s < 25)
    (hr : q_learning_step Q s epsilon g = some r) : q_bounded r.1 := by
  obtain ⟨a, s2, g2, -, -, hval⟩ := q_learning_step_value Q s epsilon g h0 h1
  rw [hval, Option.some.injEq] at hr
  subst hr
  intro t b
  simp only []
  obtain ⟨hlo, hhi⟩ := row_max_bounds Q hQ s2
  by_cases hw : t = s ∧ b = a.toInt
  · rw [if_pos hw]
    by_cases e24 : s2 = 24
    · simp only [e24, GAMMA]; norm_num
    · by_cases e3 : s2 = 3 ∨ s2 = 16
      · rw [if_neg e24, if_pos e3, if_pos (Or.inr e3)]
        norm_num [GAMMA]
      · rw [if_neg e24, if_neg e3, if_neg (by tauto)]
        simp only [GAMMA]
        constructor <;> linarith
  · rw [if_neg hw]
    exact hQ t b

/-- C16: starting from the all-zero table, after any number of episodes with
any generator the table is defined and every entry lies in `[-100, 100]`, so
the initial value `-1e9` of the maximum searches is strictly below every
stored entry; and a single training step from any valid index, whatever the
chosen action and the slip outcome, keeps every entry in `[-100, 100]`. -/
theorem q_table_bounded :
    q_bounded q_table_init ∧
    (∀ (Q : QTable) (s : Int) (epsilon : ℚ) (g : RandGen) (r : QTable × Int × RandGen),
      q_bounded Q → 0 ≤ s → s < 25 → q_learning_step Q s epsilon g = some r →
      q_bounded r.1) ∧
    (∀ (N : Nat) (g : RandGen), ∃ Q, q_table_after N g = some Q ∧ q_bounded Q ∧
      ∀ s a : Int, MAX_Q_INIT < Q s a) ∧
    (∀ Q : QTable, q_bounded Q → ∀ s a : Int, MAX_Q_INIT < Q s a) := by
  have hinit : q_bounded q_table_init := by
    intro s a
    simp only [q_table_init]
    norm_num
  have hbelow : ∀ Q : QTable, q_bounded Q → ∀ s a : Int, MAX_Q_INIT < Q s a := by
    intro Q hQ s a
    have h := (hQ s a).1
    have hm : MAX_Q_INIT < -100 := by norm_num [MAX_Q_INIT]
    exact lt_of_lt_of_le hm h
  refine ⟨hinit, fun Q s epsilon g r hQ h0 h1 hr =>
    q_learning_step_bounded Q s epsilon g r hQ h0 h1 hr, ?_, hbelow⟩
  intro N g
  obtain ⟨t2, ht2, hI⟩ := run_episodes_invariant q_bounded
    (fun Q s epsilon g r hQ h0 h1 _ hr => q_learning_step_bounded Q s epsilon g r hQ h0 h1 hr)
    N (trainer_init g) hinit
  refine ⟨t2.q_table, ?_, hI, hbelow _ hI⟩
  unfold q_table_after
  rw [ht2, Option.map_some']

/-- A training step from a valid, non-terminal index leaves the rows of the
terminal states as they are. -/
theorem q_learning_step_terminal_rows (Q : QTable) (s : Int) (epsilon : ℚ) (g : RandGen)
    (r : QTable × Int × RandGen) (h0 : 0 ≤ s) (h1 : s < 25) (hnt : ¬ is_terminal s)
    (hr : q_learning_step Q s epsilon g = some r) :
    ∀ t a : Int, (t = 3 ∨ t = 16 ∨ t = 24) → r.1 t a = Q t a := by
  obtain ⟨a, s2, g2, -, -, hval⟩ := q_learning_step_value Q s epsilon g h0 h1
  rw [hval, Option.some.injEq] at hr
  subst hr
  intro t b ht
  have hs : ¬ (s = 24 ∨ s = 3 ∨ s = 16) := fun h => hnt ((is_terminal_iff s h0 h1).mpr h)
  simp only []
  rw [if_neg]
  rintro ⟨rfl, -⟩
  exact hs (by tauto)

/-- C17: starting from the all-zero table, after any number of episodes with
any generator the table is defined and all entries of the rows of the GOAL
and MONSTER states, which are the indices 3, 16 and 24, are `0`; a training
step from a valid non-terminal index never changes one of these rows. -/
theorem terminal_rows_zero :
    (∀ s : Int, 0 ≤ s → s < 25 → (is_terminal s ↔ s = 24 ∨ s = 3 ∨ s = 16)) ∧
    (∀ (N : Nat) (g : RandGen), ∃ Q, q_table_after N g = some Q ∧
      ∀ t a : Int, (t = 3 ∨ t = 16 ∨ t = 24) → Q t a = 0) ∧
    (∀ (Q : QTable) (s : Int) (epsilon : ℚ) (g : RandGen) (r : QTable × Int × RandGen),
      0 ≤ s → s < 25 → ¬ is_terminal s → q_learning_step Q s epsilon g = some r →
      ∀ t a : Int, (t = 3 ∨ t = 16 ∨ t = 24) → r.1 t a = Q t a) := by
  refine ⟨is_terminal_iff, ?_, fun Q s epsilon g r h0 h1 hnt hr =>
    q_learning_step_terminal_rows Q s epsilon g r h0 h1 hnt hr⟩
  intro N g
  obtain ⟨t2, ht2, hI⟩ := run_episodes_invariant
    (fun Q => ∀ t a : Int, (t = 3 ∨ t = 16 ∨ t = 24) → Q t a = 0)
    (fun Q s epsilon g r hQ h0 h1 hnt hr t a ht => by
      rw [q_learning_step_terminal_rows Q s epsilon g r h0 h1 hnt hr t a ht]
      exact hQ t a ht)
    N (trainer_init g) (fun _ _ _ => rfl)
  refine ⟨t2.q_table, ?_, hI⟩
  unfold q_table_after
  rw [ht2, Option.map_some']

/-! ### Playback -/

/-- One iteration of the playback loop from a valid, non-terminal state
below the cap: the loop continues from the next state with one more step,
having written neither `Goal reached!` nor `Oops! Eaten by a monster!`, the
line of the cell moved to, and `Max steps reached...` exactly when the
incremented counter reaches the cap. -/
theorem play_loop_move (Q : QTable) (p : Play) (a : Action)
    (hs : p.steps < MAX_STEPS_PER_EPISODE)
    (h0 : 0 ≤ p.current_state) (h1 : p.current_state < 25)
    (hnt : ¬ is_terminal p.current_state)
    (ha : best_action Q p.current_state = some a) :
    ∃ lines, play_loop Q p
        = play_loop Q ⟨(get_next_state p.current_state a (rand p.gen).2).1, p.steps + 1,
            (get_next_state p.current_state a (rand p.gen).2).2, p.out ++ lines⟩ ∧
      Line.goal_reached ∉ lines ∧ Line.eaten ∉ lines ∧
      (Line.max_steps ∈ lines ↔ MAX_STEPS_PER_EPISODE ≤ p.steps + 1) ∧
      (∀ cell, cell_of (get_next_state p.current_state a (rand p.gen).2).1 = some cell →
        Line.moved_to (to_row_col (get_next_state p.current_state a (rand p.gen).2).1).1
          (to_row_col (get_next_state p.current_state a (rand p.gen).2).1).2 cell ∈ lines) := by
  obtain ⟨cell, hcell⟩ : ∃ cell, cell_of p.current_state = some cell :=
    ⟨_, cell_of_index _ h0 h1⟩
  have hg : cell ≠ CellType.GOAL := fun h => hnt (Or.inl (by rw [hcell, h]))
  have hm : cell ≠ CellType.MONSTER := fun h => hnt (Or.inr (by rw [hcell, h]))
  have hnext := get_next_state_range p.current_state a (rand p.gen).2 h0 h1
  obtain ⟨cell2, hcell2⟩ :
      ∃ c, cell_of (get_next_state p.current_state a (rand p.gen).2).1 = some c :=
    ⟨_, cell_of_index _ hnext.1 hnext.2⟩
  have hchoose : choose_action Q p.current_state 0 p.gen = some (a, (rand p.gen).2) := by
    rw [choose_action_exploit_eq Q _ 0 p.gen (not_explores_zero _), ha]
    rfl
  unfold cell_of at hcell hcell2
  obtain ⟨lines, hbody, hl⟩ : ∃ lines, play_body Q p.current_state p.steps p.gen
      = some (lines, some ((get_next_state p.current_state a (rand p.gen).2).1,
          (get_next_state p.current_state a (rand p.gen).2).2)) ∧
      lines = [Line.at_state (p.steps + 1) (to_row_col p.current_state).1
            (to_row_col p.current_state).2 cell, Line.choosing a,
          Line.moved_to (to_row_col (get_next_state p.current_state a (rand p.gen).2).1).1
            (to_row_col (get_next_state p.current_state a (rand p.gen).2).1).2 cell2]
          ++ (if p.current_state = (get_next_state p.current_state a (rand p.gen).2).1 ∧
                edge_test a (to_row_col p.current_state) then [Line.hit_wall] else [])
          ++ (if p.steps + 1 ≥ MAX_STEPS_PER_EPISODE then [Line.max_steps] else []) := by
    refine ⟨_, ?_, rfl⟩
    unfold play_body
    simp only [hcell, Option.some_bind, if_neg hg, if_neg hm, hchoose, hcell2,
      Option.map_some']
  refine ⟨lines, ?_, ?_, ?_, ?_, ?_⟩
  · conv_lhs => rw [play_loop]
    rw [if_pos hs, hbody]
  · rw [hl]
    split_ifs <;> simp
  · rw [hl]
    split_ifs <;> simp
  · rw [hl]
    split_ifs with hw hc hc <;> simp <;> omega
  · intro c hc
    unfold cell_of at hc
    rw [hcell2, Option.some.injEq] at hc
    subst hc
    rw [hl]
    simp

theorem rand_late_slip_gen (n : Nat) :
    (rand (late_slip_gen n)).2 = late_slip_gen (n + 1) := rfl

theorem slip_fires_late_slip_gen (n : Nat) : slip_fires (late_slip_gen n) ↔ n = 197 := by
  unfold slip_fires unit_draw rand late_slip_gen
  by_cases h : n = 197
  · simp [h]
  · simp only [h, if_false, iff_false, not_lt]
    norm_num

theorem best_action_cycle_table :
    best_action cycle_table 0 = some Action.RIGHT ∧
    best_action cycle_table 1 = some Action.LEFT ∧
    best_action cycle_table 2 = some Action.RIGHT := by
  refine ⟨?_, ?_, ?_⟩
  · rw [best_action_eq _ 0 (by decide) (by decide)]
    norm_num [cycle_table, MAX_Q_INIT]
  · rw [best_action_eq _ 1 (by decide) (by decide)]
    norm_num [cycle_table, MAX_Q_INIT]
  · rw [best_action_eq _ 2 (by decide) (by decide)]
    norm_num [cycle_table, MAX_Q_INIT]

/-- The three moves of the walk under `cycle_table`, with the generator. -/
theorem get_next_state_cycle (n : Nat) :
    get_next_state 0 Action.RIGHT (late_slip_gen n)
      = (if n = 197 then 2 else 1, late_slip_gen (n + 1)) ∧
    get_next_state 1 Action.LEFT (late_slip_gen n) = (0, late_slip_gen (n + 1)) ∧
    get_next_state 2 Action.RIGHT (late_slip_gen n)
      = (if n = 197 then 4 else 3, late_slip_gen (n + 1)) := by
  have hs := slip_fires_late_slip_gen n
  refine ⟨?_, ?_, ?_⟩
  · unfold get_next_state
    by_cases h : n = 197
    · rw [if_pos h]
      have hf : slip_fires (late_slip_gen n) := hs.mpr h
      simp only [rand_late_slip_gen, if_pos hf]
      rfl
    · rw [if_neg h]
      have hf : ¬ slip_fires (late_slip_gen n) := fun hf => h (hs.mp hf)
      simp only [rand_late_slip_gen, if_neg hf]
      rfl
  · unfold get_next_state
    by_cases hf : slip_fires (late_slip_gen n)
    · simp only [rand_late_slip_gen, if_pos hf]
      rfl
    · simp only [rand_late_slip_gen, if_neg hf]
      rfl
  · unfold get_next_state
    by_cases h : n = 197
    · rw [if_pos h]
      have hf : slip_fires (late_slip_gen n) := hs.mpr h
      simp only [rand_late_slip_gen, if_pos hf]
      rfl
    · rw [if_neg h]
      have hf : ¬ slip_fires (late_slip_gen n) := fun hf => h (hs.mp hf)
      simp only [rand_late_slip_gen, if_neg hf]
      rfl

/-- The statement of `play_loop_move` with the fields of the loop state given
one by one. -/
theorem play_loop_move_at (Q : QTable) (s : Int) (k : Nat) (g : RandGen)
    (out : List Line) (a : Action) (hs : k < MAX_STEPS_PER_EPISODE)
    (h0 : 0 ≤ s) (h1 : s < 25) (hnt : ¬ is_terminal s) (ha : best_action Q s = some a) :
    ∃ lines, play_loop Q ⟨s, k, g, out⟩
        = play_loop Q ⟨(get_next_state s a (rand g).2).1, k + 1,
            (get_next_state s a (rand g).2).2, out ++ lines⟩ ∧
      Line.goal_reached ∉ lines ∧ Line.eaten ∉ lines ∧
      (Line.max_steps ∈ lines ↔ MAX_STEPS_PER_EPISODE ≤ k + 1) ∧
      (∀ cell, cell_of (get_next_state s a (rand g).2).1 = some cell →
        Line.moved_to (to_row_col (get_next_state s a (rand g).2).1).1
          (to_row_col (get_next_state s a (rand g).2).1).2 cell ∈ lines) :=
  play_loop_move Q ⟨s, k, g, out⟩ a hs h0 h1 hnt ha

/-- Under `cycle_table` and `late_slip_gen`, the playback is back at state 0
after `2 * j` moves, for `j ≤ 49`, without a terminal report. -/
theorem play_loop_cycle (j : Nat) (hj : j ≤ 49) :
    ∃ out, Line.goal_reached ∉ out ∧ Line.eaten ∉ out ∧
      play_loop cycle_table ⟨0, 0, late_slip_gen 0, [Line.banner]⟩
        = play_loop cycle_table ⟨0, 2 * j, late_slip_gen (4 * j), out⟩ := by
  induction j with
  | zero => exact ⟨[Line.banner], by simp, by simp, rfl⟩
  | succ j ih =>
    obtain ⟨out, hg, he, hrun⟩ := ih (by omega)
    obtain ⟨l1, h1, hg1, he1, -, -⟩ :=
      play_loop_move_at cycle_table 0 (2 * j) (late_slip_gen (4 * j)) out Action.RIGHT
        (by show 2 * j < 100; omega) (by decide) (by decide) (by decide)
        best_action_cycle_table.1
    simp only [rand_late_slip_gen, (get_next_state_cycle (4 * j + 1)).1,
      if_neg (show ¬ 4 * j + 1 = 197 by omega)] at h1
    obtain ⟨l2, h2, hg2, he2, -, -⟩ :=
      play_loop_move_at cycle_table 1 (2 * j + 1) (late_slip_gen (4 * j + 1 + 1))
        (out ++ l1) Action.LEFT (by show 2 * j + 1 < 100; omega) (by decide) (by decide)
        (by decide) best_action_cycle_table.2.1
    simp only [rand_late_slip_gen, (get_next_state_cycle (4 * j + 1 + 1 + 1)).2.1] at h2
    have e1 : 2 * (j + 1) = 2 * j + 1 + 1 := by ring
    have e2 : 4 * (j + 1) = 4 * j + 1 + 1 + 1 + 1 := by ring
    refine ⟨out ++ l1 ++ l2, ?_, ?_, ?_⟩
    · simp only [List.mem_append, not_or]
      exact ⟨⟨hg, hg1⟩, hg2⟩
    · simp only [List.mem_append, not_or]
      exact ⟨⟨he, he1⟩, he2⟩
    · rw [hrun, h1, h2, e1, e2]

/-- C12 fails on the code: with `cycle_table` and `late_slip_gen` the agent
enters the MONSTER cell (0,3) with its 100th move; the run then writes
`Max steps reached. Did not find goal or monster.` and ends on the MONSTER
cell without ever writing `Oops! Eaten by a monster!`. -/
theorem play_game_cap_on_monster :
    ∃ p, play_game cycle_table (late_slip_gen 0) = some p ∧
      p.current_state = 3 ∧ p.steps = 100 ∧
      cell_of p.current_state = some CellType.MONSTER ∧
      Line.moved_to 0 3 CellType.MONSTER ∈ p.out ∧
      Line.max_steps ∈ p.out ∧ Line.eaten ∉ p.out ∧ Line.goal_reached ∉ p.out := by
  obtain ⟨out, hg, he, hrun⟩ := play_loop_cycle 49 le_rfl
  obtain ⟨l1, h1, hg1, he1, -, -⟩ :=
    play_loop_move_at cycle_table 0 (2 * 49) (late_slip_gen (4 * 49)) out Action.RIGHT
      (by decide) (by decide) (by decide) (by decide) best_action_cycle_table.1
  simp only [rand_late_slip_gen, (get_next_state_cycle (4 * 49 + 1)).1,
    if_pos (show 4 * 49 + 1 = 197 by decide), if_true] at h1
  obtain ⟨l2, h2, hg2, he2, hcap, hmoved⟩ :=
    play_loop_move_at cycle_table 2 (2 * 49 + 1) (late_slip_gen (4 * 49 + 1 + 1))
      (out ++ l1) Action.RIGHT (by decide) (by decide) (by decide) (by decide)
      best_action_cycle_table.2.2
  simp only [rand_late_slip_gen, (get_next_state_cycle (4 * 49 + 1 + 1 + 1)).2.2,
    if_neg (show ¬ 4 * 49 + 1 + 1 + 1 = 197 by decide)] at h2 hcap hmoved
  have hend : play_loop cycle_table
      ⟨3, 2 * 49 + 1 + 1, late_slip_gen (4 * 49 + 1 + 1 + 1 + 1), out ++ l1 ++ l2⟩
      = some ⟨3, 2 * 49 + 1 + 1, late_slip_gen (4 * 49 + 1 + 1 + 1 + 1), out ++ l1 ++ l2⟩ := by
    rw [play_loop, if_neg (by show ¬ (2 * 49 + 1 + 1 < 100); decide)]
  refine ⟨⟨3, 2 * 49 + 1 + 1, late_slip_gen (4 * 49 + 1 + 1 + 1 + 1), out ++ l1 ++ l2⟩,
    ?_, rfl, rfl, (by show cell_of 3 = some CellType.MONSTER; decide), ?_, ?_, ?_, ?_⟩
  · unfold play_game
    rw [start_index, hrun, h1, h2, hend]
  · exact List.mem_append_right _ (hmoved CellType.MONSTER (by decide))
  · exact List.mem_append_right _ (hcap.mpr (by decide))
  · simp only [List.mem_append, not_or]
    exact ⟨⟨he, he1⟩, he2⟩
  · simp only [List.mem_append, not_or]
    exact ⟨⟨hg, hg1⟩, hg2⟩

/-! ### The maximum searches on the tables the program holds

`q_table` starts as the all-zero table and is written only by the training
step, so every table the program holds has its entries in `[-100, 100]`
(`q_bounded`). -/

/-- After any number of episodes the table is defined and has its entries in
`[-100, 100]`. -/
theorem q_table_after_bounded (N : Nat) (g : RandGen) :
    ∃ Q, q_table_after N g = some Q ∧ q_bounded Q := by
  have hinit : q_bounded q_table_init := by
    intro s a
    simp only [q_table_init]
    norm_num
  obtain ⟨t2, ht2, hI⟩ := run_episodes_invariant q_bounded
    (fun Q s epsilon g r hQ h0 h1 _ hr => q_learning_step_bounded Q s epsilon g r hQ h0 h1 hr)
    N (trainer_init g) hinit
  refine ⟨t2.q_table, ?_, hI⟩
  unfold q_table_after
  rw [ht2, Option.map_some']

/-- A stored value of a table with entries in `[-100, 100]` is above the
initial value of the searches. -/
theorem q_bounded_above_init (Q : QTable) (hQ : q_bounded Q) (s a : Int) :
    MAX_Q_INIT < Q s a := by
  have hm : MAX_Q_INIT < -100 := by norm_num [MAX_Q_INIT]
  exact lt_of_lt_of_le hm (hQ s a).1

/-- C5: for every Q-table the program can hold, that is with entries in
`[-100, 100]`, and every index `s` in `[0,25)`, `get_max_q_value_for_state`
returns `0` when the cell of `s` is GOAL or MONSTER, whatever any table stores
in row `s`, and otherwise returns the maximum of the four stored values of
row `s`; in particular so for the table held after any number of training
episodes. -/
theorem get_max_q_value_for_state_row_max (Q : QTable) (s : Int)
    (h0 : 0 ≤ s) (h1 : s < 25) (hQ : q_bounded Q) :
    (cell_of s = some CellType.GOAL ∨ cell_of s = some CellType.MONSTER →
      ∀ Qany : QTable, get_max_q_value_for_state Qany s = some 0) ∧
    (cell_of s ≠ some CellType.GOAL → cell_of s ≠ some CellType.MONSTER →
      get_max_q_value_for_state Q s = some (row_max Q s)) ∧
    (∀ (N : Nat) (g : RandGen), ∃ Qt, q_table_after N g = some Qt ∧
      (cell_of s = some CellType.GOAL ∨ cell_of s = some CellType.MONSTER →
        get_max_q_value_for_state Qt s = some 0) ∧
      (cell_of s ≠ some CellType.GOAL → cell_of s ≠ some CellType.MONSTER →
        get_max_q_value_for_state Qt s = some (row_max Qt s))) := by
  have hrow : ∀ Qb : QTable, q_bounded Qb →
      cell_of s ≠ some CellType.GOAL → cell_of s ≠ some CellType.MONSTER →
      get_max_q_value_for_state Qb s = some (row_max Qb s) := by
    intro Qb hQb hg hm
    exact (get_max_q_value_cases Qb s h0 h1).2.2 hg hm
      ⟨0, le_refl 0, by decide, (q_bounded_above_init Qb hQb s 0).le⟩
  refine ⟨fun hterm Qany => (get_max_q_value_cases Qany s h0 h1).1 hterm,
    hrow Q hQ, fun N g => ?_⟩
  obtain ⟨Qt, hQt, hb⟩ := q_table_after_bounded N g
  exact ⟨Qt, hQt, (get_max_q_value_cases Qt s h0 h1).1, hrow Qt hb⟩

theorem q_bounded_const_seven : q_bounded (const_table 7) := by
  intro s a
  simp only [const_table]
  norm_num

theorem get_max_q_value_for_state_row_max_witness :
    (cell_of 3 = some CellType.GOAL ∨ cell_of 3 = some CellType.MONSTER →
      ∀ Qany : QTable, get_max_q_value_for_state Qany 3 = some 0) ∧
    get_max_q_value_for_state (const_table 7) 1 = some (row_max (const_table 7) 1) :=
  ⟨(get_max_q_value_for_state_row_max (const_table 7) 3 (by decide) (by decide)
      q_bounded_const_seven).1,
   (get_max_q_value_for_state_row_max (const_table 7) 1 (by decide) (by decide)
      q_bounded_const_seven).2.1 (by decide) (by decide)⟩

/-- C6: for every Q-table the program can hold, that is with entries in
`[-100, 100]`, and every index `s` in `[0,25)`, whenever `choose_action`
takes its exploit branch the returned action `a` satisfies
`Q[s][a] ≥ Q[s][b]` for every action `b` and `Q[s][b] < Q[s][a]` for every
action `b` of smaller index than `a`; in particular so for the table held
after any number of training episodes. -/
theorem choose_action_exploit_first_max (Q : QTable) (s : Int) (epsilon : ℚ)
    (g : RandGen) (h0 : 0 ≤ s) (h1 : s < 25) (hx : ¬ explores epsilon g)
    (hQ : q_bounded Q) :
    (∃ a, choose_action Q s epsilon g = some (a, (rand g).2) ∧
      (∀ b : Action, Q s b.toInt ≤ Q s a.toInt) ∧
      (∀ b : Action, b.toInt < a.toInt → Q s b.toInt < Q s a.toInt)) ∧
    (∀ (N : Nat) (g0 : RandGen), ∃ Qt, q_table_after N g0 = some Qt ∧
      ∃ a, choose_action Qt s epsilon g = some (a, (rand g).2) ∧
        (∀ b : Action, Qt s b.toInt ≤ Qt s a.toInt) ∧
        (∀ b : Action, b.toInt < a.toInt → Qt s b.toInt < Qt s a.toInt)) := by
  refine ⟨choose_action_exploit_above_init Q s epsilon g h0 h1 hx
    ⟨Action.UP, q_bounded_above_init Q hQ s _⟩, fun N g0 => ?_⟩
  obtain ⟨Qt, hQt, hb⟩ := q_table_after_bounded N g0
  exact ⟨Qt, hQt, choose_action_exploit_above_init Qt s epsilon g h0 h1 hx
    ⟨Action.UP, q_bounded_above_init Qt hb s _⟩⟩

theorem q_bounded_init : q_bounded q_table_init := by
  intro s a
  simp only [q_table_init]
  norm_num

theorem choose_action_exploit_first_max_witness :
    ∃ a, choose_action q_table_init 7 0 (const_gen 0) = some (a, (rand (const_gen 0)).2) ∧
      (∀ b : Action, q_table_init 7 b.toInt ≤ q_table_init 7 a.toInt) ∧
      (∀ b : Action, b.toInt < a.toInt →
        q_table_init 7 b.toInt < q_table_init 7 a.toInt) :=
  (choose_action_exploit_first_max q_table_init 7 0 (const_gen 0) (by decide) (by decide)
    (not_explores_zero _) q_bounded_init).1

end SlipGrid
